import Mathlib

set_option linter.unusedVariables false
set_option maxRecDepth 100000

/-!
Verification of the contract-extraction pipeline
(`extract_entity.py` / `extract_payment_details.py`).

Text is modelled as `List Char` (the repository's corpus is ASCII OCR text).
Each Python regular-expression test is embedded either as a bounded
existential search (for boolean `re.search` uses) or as a deterministic
scan implementing the leftmost / lazy / greedy backtracking order of the
specific pattern (for `re.finditer` loops whose captures feed decisions).
The regex end anchor `$` is modelled as `atEnd`: end of input, or the
position just before a final newline, as in Python without `MULTILINE`.
Nullable party strings are modelled as `Option String`; monetary floats
are modelled as exact rationals (`ℚ`): the numeric literals the patterns
accept are decimal, so parsing and the (priority, value) comparisons are
exact.
-/

namespace Contract

/-- ASCII lower-casing of one character, as Python `str.lower` acts on the
ASCII range. -/
def lowerChar (c : Char) : Char :=
  if 'A' ≤ c ∧ c ≤ 'Z' then Char.ofNat (c.toNat + 32) else c

/-- Lower-case a whole text. -/
def lowerL (t : List Char) : List Char := t.map lowerChar

/-- Python regex `\s` on the ASCII range: space, tab, newline, carriage
return, form feed, vertical tab. -/
def isWS (c : Char) : Bool :=
  c = ' ' ∨ c = '\t' ∨ c = '\n' ∨ c = '\r' ∨ c = '\x0c' ∨ c = '\x0b'

/-- Python regex `\d` (ASCII). -/
def isDigit (c : Char) : Bool := '0' ≤ c ∧ c ≤ '9'

def isUpperAlpha (c : Char) : Bool := 'A' ≤ c ∧ c ≤ 'Z'

def isLowerAlpha (c : Char) : Bool := 'a' ≤ c ∧ c ≤ 'z'

def isAlpha (c : Char) : Bool := isUpperAlpha c ∨ isLowerAlpha c

/-- Python regex `\w` (ASCII): letters, digits, underscore. -/
def isWordChar (c : Char) : Bool := isAlpha c ∨ isDigit c ∨ c = '_'

/-- Character of `t` at index `i`, with a NUL default off the end. -/
def charAt (t : List Char) (i : Nat) : Char := t.getD i (Char.ofNat 0)

/-- The literal `p` occurs in `t` starting at index `i`. -/
def matchAt (t p : List Char) (i : Nat) : Bool :=
  decide ((t.drop i).take p.length = p)

/-- Case-insensitive occurrence of the (lower-case) literal `p` at `i`. -/
def matchAtCI (t p : List Char) (i : Nat) : Bool :=
  decide (lowerL ((t.drop i).take p.length) = p)

/-- Python `needle in hay` on strings: substring containment. -/
def containsSub (hay needle : List Char) : Bool :=
  (List.range (hay.length + 1)).any fun i => matchAt hay needle i

/-- All characters of `t` in the index interval `[a, b)` satisfy `p`. -/
def allIn (t : List Char) (a b : Nat) (p : Char → Bool) : Bool :=
  ((t.drop a).take (b - a)).all p

/-- A non-empty whitespace run fills `[a, b)` (regex `\s+` consumed as a
segment). -/
def wsSeg (t : List Char) (a b : Nat) : Bool :=
  a < b ∧ allIn t a b isWS

/-- No newline in `[a, b)`: the characters a `.`-gap (without `DOTALL`)
may skip. -/
def noNL (t : List Char) (a b : Nat) : Bool :=
  allIn t a b (fun c => c ≠ '\n')

/-- End of the maximal run of `p`-characters starting at `i`. -/
def runEnd (t : List Char) (p : Char → Bool) (i : Nat) : Nat :=
  i + ((t.drop i).takeWhile p).length

/-- End of the maximal `\s*` run at `i`. -/
def wsEnd (t : List Char) (i : Nat) : Nat := runEnd t isWS i

/-- End of the maximal `\w*` run at `i`. -/
def wordEnd (t : List Char) (i : Nat) : Nat := runEnd t isWordChar i

/-- Python regex `$` (no `MULTILINE`): end of input or just before a final
newline. -/
def atEnd (t : List Char) (i : Nat) : Bool :=
  i = t.length ∨ (i + 1 = t.length ∧ charAt t i = '\n')

/-- The slice `t[a:b]`. -/
def slice (t : List Char) (a b : Nat) : List Char := (t.take b).drop a

/-- Python `str.strip()`. -/
def stripL (l : List Char) : List Char :=
  ((l.dropWhile isWS).reverse.dropWhile isWS).reverse

/-- Helper of `collapseWS`: `prevWS` records whether the previous
character was whitespace (already emitted as one space). -/
def collapseGo (prevWS : Bool) : List Char → List Char
  | [] => []
  | c :: rest =>
    if isWS c then
      if prevWS then collapseGo true rest else ' ' :: collapseGo true rest
    else c :: collapseGo false rest

/-- `re.sub(r"\s+", " ", ·)`: every maximal whitespace run becomes one
space. -/
def collapseWS (l : List Char) : List Char := collapseGo false l

/-- Python `text.split("\n")`. -/
def splitNL : List Char → List (List Char)
  | [] => [[]]
  | c :: rest =>
    if c = '\n' then [] :: splitNL rest
    else
      match splitNL rest with
      | [] => [[c]]
      | l :: ls => (c :: l) :: ls

/-- Helper of `splitWS`: `cur` is the current word, reversed. -/
def splitGo (cur : List Char) : List Char → List (List Char)
  | [] => if cur.isEmpty then [] else [cur.reverse]
  | c :: rest =>
    if isWS c then
      if cur.isEmpty then splitGo [] rest else cur.reverse :: splitGo [] rest
    else splitGo (c :: cur) rest

/-- Python `str.split()` (split on whitespace runs, dropping empties). -/
def splitWS (l : List Char) : List (List Char) := splitGo [] l

/-- Character list of a string literal. -/
def chars (s : String) : List Char := s.data

/-! ## Generic scanning machinery

`scanA` realises a lazy `.*?`-gap followed by a sub-pattern check: it
tries the check at increasing positions; with `barrier` set the gap may
not cross a newline (a `.`-gap without `DOTALL`).  `iterScan` realises a
`re.finditer` loop: `step` either reports no match starting at the
position, a match that did not decide (scanning resumes after its end),
or a deciding match. -/

def scanAF (t : List Char) (barrier : Bool) (chk : Nat → Option α) :
    Nat → Nat → Option α
  | 0, _ => none
  | fuel + 1, pos =>
    if t.length < pos then none
    else
      match chk pos with
      | some a => some a
      | none =>
        if pos = t.length then none
        else if barrier ∧ charAt t pos = '\n' then none
        else scanAF t barrier chk fuel (pos + 1)

def scanA (t : List Char) (barrier : Bool) (chk : Nat → Option α)
    (pos : Nat) : Option α :=
  scanAF t barrier chk (t.length + 1 - pos) pos

def iterScanF (t : List Char) (step : Nat → Option (Option α × Nat)) :
    Nat → Nat → Option α
  | 0, _ => none
  | fuel + 1, pos =>
    if t.length < pos then none
    else
      match step pos with
      | some (some a, _) => some a
      | some (none, e) => iterScanF t step fuel (max e (pos + 1))
      | none => iterScanF t step fuel (pos + 1)

def iterScan (t : List Char) (step : Nat → Option (Option α × Nat))
    (pos : Nat) : Option α :=
  iterScanF t step (t.length + 1 - pos) pos

/-! ## Entity types (`get_entity_type`) -/

/-- The organisation-type keywords of the parser, in its fixed scan
order. -/
def entityTypeOrder : List (List Char) :=
  [chars "sheriff", chars "township", chars "village", chars "town",
   chars "district", chars "city", chars "county", chars "agency",
   chars "department"]

/-- `get_entity_type`: first type keyword contained in the lower-cased
party name. -/
def getEntityType (party : List Char) : Option (List Char) :=
  entityTypeOrder.find? fun ty => containsSub (lowerL party) ty

/-- `_party_matches_text`: bidirectional substring containment between a
lower-cased party name and a captured span. -/
def partyRel (pl txt : List Char) : Bool :=
  containsSub txt pl || containsSub pl txt

/-- Which of the two input parties is payer: `fwd` keeps the input order
`(party1, party2)`, `rev` swaps it. -/
inductive PayDir : Type
  | fwd
  | rev
deriving DecidableEq

/-! ## Resolver rule 1: generic entity-type patterns

`re.search(r"(?:the\s+)?KW1.*?(?:shall|will|agrees?\s+to)\s+pay.*?"
           r"(?:to\s+)?(?:the\s+)?KW2", text_lower)` (no `DOTALL`, so the
`.`-gaps may not cross newlines; the leading optional `the` cannot affect
whether a match exists and is dropped). -/

/-- Segment `[b, a)` of `t` matches `\s+to`. -/
def wsThenTo (t : List Char) (b a : Nat) : Bool :=
  b + 3 ≤ a && wsSeg t b (a - 2) && matchAt t (chars "to") (a - 2)

/-- Segment `[j, a)` of `t` matches `(?:shall|will|agrees?\s+to)`. -/
def verbAltSeg (t : List Char) (j a : Nat) : Bool :=
  (matchAt t (chars "shall") j && decide (a = j + 5)) ||
  (matchAt t (chars "will") j && decide (a = j + 4)) ||
  (matchAt t (chars "agrees") j && wsThenTo t (j + 6) a) ||
  (matchAt t (chars "agree") j && wsThenTo t (j + 5) a)

/-- Segment `[j, k)` of `t` matches `(?:shall|will|agrees?\s+to)\s+pay`. -/
def verbPayEnd (t : List Char) (j k : Nat) : Bool :=
  decide (3 ≤ k) && matchAt t (chars "pay") (k - 3) &&
    (List.range (k + 1)).any fun a => verbAltSeg t j a && wsSeg t a (k - 3)

/-- Segment `[j, k)` of `t` matches the `payment_verb_pattern`
`(?:shall|will|agrees?\s+to)\s+pay\s+(?:to\s+)?`. -/
def verbPayToSeg (t : List Char) (j k : Nat) : Bool :=
  (List.range (k + 1)).any fun e =>
    verbPayEnd t j e &&
      (wsSeg t e k ||
        (List.range (k + 1)).any fun f =>
          wsSeg t e f && matchAt t (chars "to") f && wsSeg t (f + 2) k)

/-- `(?:the\s+)?KW` starting at `m` (somewhere in `t`). -/
def optTheKw (t kw : List Char) (m : Nat) : Bool :=
  matchAt t kw m ||
    (matchAt t (chars "the") m &&
      (List.range (t.length + 1)).any fun b =>
        wsSeg t (m + 3) b && matchAt t kw b)

/-- `(?:to\s+)?(?:the\s+)?KW` starting at `m`. -/
def optToTheKw (t kw : List Char) (m : Nat) : Bool :=
  optTheKw t kw m ||
    (matchAt t (chars "to") m &&
      (List.range (t.length + 1)).any fun b =>
        wsSeg t (m + 2) b && optTheKw t kw b)

/-- `re.search` of one generic payment pattern on the lower-cased text. -/
def searchGenericPay (t kw1 kw2 : List Char) : Bool :=
  let n := t.length
  (List.range (n + 1)).any fun i =>
    matchAt t kw1 i &&
      (List.range (n + 1)).any fun j =>
        decide (i + kw1.length ≤ j) && noNL t (i + kw1.length) j &&
          (List.range (n + 1)).any fun k =>
            verbPayEnd t j k &&
              (List.range (n + 1)).any fun m =>
                decide (k ≤ m) && noNL t k m && optToTheKw t kw2 m

/-- The fixed `(pattern, payer_type, payee_type)` table of rule 1, as the
payer/payee keyword pairs of its four patterns. -/
def genericPatterns : List (List Char × List Char) :=
  [(chars "city", chars "county"), (chars "county", chars "city"),
   (chars "city", chars "sheriff"), (chars "sheriff", chars "city")]

/-- The rule-1 loop: first pattern that matches the text and whose
payer/payee types map onto the two party types decides; a matching
pattern whose types do not correspond is skipped. -/
def stage1Loop (tl a b : List Char) :
    List (List Char × List Char) → Option PayDir
  | [] => none
  | (payer, payee) :: rest =>
    if searchGenericPay tl payer payee then
      if a = payer ∧ b = payee then some .fwd
      else if b = payer ∧ a = payee then some .rev
      else stage1Loop tl a b rest
    else stage1Loop tl a b rest

/-- Rule 1 (generic entity-type cascade): runs only when both parties
have a known entity type and the types differ. -/
def stage1 (tl : List Char) (ty1 ty2 : Option (List Char)) : Option PayDir :=
  match ty1, ty2 with
  | some a, some b => if a ≠ b then stage1Loop tl a b genericPatterns else none
  | _, _ => none

/-! ## Resolver rule 2a: direct named-pair patterns with the bounded
100-character windows (`re.DOTALL`, so the `.{0,100}?` gaps may cross
newlines). -/

/-- `re.search(party_a + ".{0,100}?" + payment_verb_pattern + ".{0,100}?"
+ party_b, text_lower, re.DOTALL)`. -/
def searchNamedPay (t p q : List Char) : Bool :=
  let n := t.length
  (List.range (n + 1)).any fun i =>
    matchAt t p i &&
      (List.range 101).any fun g1 =>
        (List.range (n + 1)).any fun k =>
          verbPayToSeg t (i + p.length + g1) k &&
            (List.range 101).any fun g2 => matchAt t q (k + g2)

/-- Rule 2a: `party1 … pay … party2` first, then the symmetric form. -/
def stage2named (tl l1 l2 : List Char) : Option PayDir :=
  if searchNamedPay tl l1 l2 then some .fwd
  else if searchNamedPay tl l2 l1 then some .rev
  else none

/-! ## Resolver rule 2b: the loose generic scan
`(?:the\s+)?(\w+(?:\s+\w+)*?)\s+VERB\s+pay\s+(?:to\s+)?(?:the\s+)?`
`(\w+(?:\s+\w+)*?)` over `re.finditer`, with bidirectional containment
tests of the two captures against the party names. -/

/-- Deterministic parse of `(?:shall|will|agrees?\s+to)` at `f`,
returning the position after it. -/
def detVerb (t : List Char) (f : Nat) : Option Nat :=
  if matchAt t (chars "shall") f then some (f + 5)
  else if matchAt t (chars "will") f then some (f + 4)
  else
    match
      (if matchAt t (chars "agrees") f then some (f + 6)
       else if matchAt t (chars "agree") f then some (f + 5) else none) with
    | some g0 =>
      let w := wsEnd t g0
      if g0 < w ∧ matchAt t (chars "to") w then some (w + 2) else none
    | none => none

/-- `tok` followed by `\s+` (taken maximally) at `p`; position after the
whitespace. -/
def afterTok (t tok : List Char) (p : Nat) : Option Nat :=
  if matchAt t tok p then
    let w := wsEnd t (p + tok.length)
    if p + tok.length < w then some w else none
  else none

/-- `(?:to\s+)?(?:the\s+)?` before a `\w`-capture: candidate capture
starts in the engine's greedy backtracking order; the first with a word
character wins. -/
def optToThe (t : List Char) (p : Nat) : Option Nat :=
  ((match afterTok t (chars "to") p with
    | some q =>
      (match afterTok t (chars "the") q with
       | some r => [r, q]
       | none => [q])
    | none => []) ++
   (match afterTok t (chars "the") p with
    | some r => [r]
    | none => []) ++ [p]).find? fun q => isWordChar (charAt t q)

/-- Tail `\s+VERB\s+pay\s+(?:to\s+)?(?:the\s+)?(\w+…)` after the first
capture ends at `e`: returns the second capture's interval. -/
def tailVerbPay (t : List Char) (e : Nat) : Option (Nat × Nat) :=
  let f := wsEnd t e
  if e < f then
    match detVerb t f with
    | some v =>
      let w1 := wsEnd t v
      if v < w1 ∧ matchAt t (chars "pay") w1 then
        let w2 := wsEnd t (w1 + 3)
        if w1 + 3 < w2 then
          match optToThe t w2 with
          | some q => some (q, wordEnd t q)
          | none => none
        else none
      else none
    | none => none
  else none

/-- Lazy expansion of the first capture `(\w+(?:\s+\w+)*?)` starting at
`q` with current end `e`: try the tail, else append one more
`\s+\w+` block. -/
def growCapF (t : List Char) (q : Nat) : Nat → Nat → Option ((Nat × Nat) × (Nat × Nat))
  | 0, _ => none
  | fuel + 1, e =>
    match tailVerbPay t e with
    | some c2 => some ((q, e), c2)
    | none =>
      if e < wsEnd t e then
        if wsEnd t e < wordEnd t (wsEnd t e) then
          growCapF t q fuel (wordEnd t (wsEnd t e))
        else none
      else none

def growCap (t : List Char) (q e : Nat) : Option ((Nat × Nat) × (Nat × Nat)) :=
  growCapF t q (t.length + 1 - e) e

/-- One `finditer` step of rule 2b at start position `pos`: the optional
leading `the\s+` is tried greedily first. -/
def stage2gStep (t l1 l2 : List Char) (pos : Nat) :
    Option (Option PayDir × Nat) :=
  let attempt : Nat → Option ((Nat × Nat) × (Nat × Nat)) := fun q =>
    let e := wordEnd t q
    if q < e then growCap t q e else none
  match
    (match afterTok t (chars "the") pos with
     | some q =>
       (match attempt q with
        | some r => some r
        | none => attempt pos)
     | none => attempt pos) with
  | some ((c1s, c1e), (c2s, c2e)) =>
    let payer := slice t c1s c1e
    let payee := slice t c2s c2e
    if partyRel l1 payer then
      if partyRel l2 payee then some (some .fwd, c2e) else some (none, c2e)
    else if partyRel l2 payer then
      if partyRel l1 payee then some (some .rev, c2e) else some (none, c2e)
    else some (none, c2e)
  | none => none

/-- Rule 2b. -/
def stage2generic (tl l1 l2 : List Char) : Option PayDir :=
  iterScan tl (stage2gStep tl l1 l2) 0

/-! ## Resolver rule 3: `payment.*?(?:shall be )?made.*?to.*?`
`(?:the\s+)?(\w+(?:\s+\w+)*?)` (no `DOTALL`). -/

/-- `(?:the\s+)?(\w+…)` at gap position `q`: the optional `the\s+` is
tried first; capture is the maximal word run. -/
def capTheWord (t : List Char) (q : Nat) : Option (Nat × Nat) :=
  let w := wsEnd t (q + 3)
  if matchAt t (chars "the") q ∧ q + 3 < w ∧ isWordChar (charAt t w) then
    some (w, wordEnd t w)
  else if isWordChar (charAt t q) then some (q, wordEnd t q)
  else none

/-- The rule-3 match attempt starting at `pos`: returns the capture's
interval of the first match starting there. -/
def pmCheck (t : List Char) (pos : Nat) : Option (Nat × Nat) :=
  if matchAt t (chars "payment") pos then
    match
      scanA t true
        (fun p =>
          if matchAt t (chars "shall be made") p then some (p + 13)
          else if matchAt t (chars "made") p then some (p + 4)
          else none)
        (pos + 7) with
    | none => none
    | some e1 =>
      match
        scanA t true
          (fun p => if matchAt t (chars "to") p then some (p + 2) else none)
          e1 with
      | none => none
      | some e2 => scanA t true (capTheWord t) e2
  else none

/-- One `finditer` step of rule 3: the party contained in (or containing)
the capture is the payee. -/
def stage3step (t l1 l2 : List Char) (pos : Nat) :
    Option (Option PayDir × Nat) :=
  match pmCheck t pos with
  | some (cs, ce) =>
    let c := slice t cs ce
    if partyRel l1 c then some (some .rev, ce)
    else if partyRel l2 c then some (some .fwd, ce)
    else some (none, ce)
  | none => none

/-- Rule 3. -/
def stage3 (tl l1 l2 : List Char) : Option PayDir :=
  iterScan tl (stage3step tl l1 l2) 0

/-! ## Resolver rule 4:
`(\w+(?:\s+\w+)*?)\s+shall be responsible for.*?payment`. -/

/-- Lazy expansion of the rule-4 capture from `q` with current end `e`;
returns the capture interval and the match end. -/
def respGrowF (t : List Char) (q : Nat) : Nat → Nat → Option (Nat × Nat × Nat)
  | 0, _ => none
  | fuel + 1, e =>
    match
      (let f := wsEnd t e
       if e < f ∧ matchAt t (chars "shall be responsible for") f then
         match
           scanA t true
             (fun p =>
               if matchAt t (chars "payment") p then some (p + 7) else none)
             (f + 24) with
         | some me => some (q, e, me)
         | none => none
       else none) with
    | some r => some r
    | none =>
      if e < wsEnd t e then
        if wsEnd t e < wordEnd t (wsEnd t e) then
          respGrowF t q fuel (wordEnd t (wsEnd t e))
        else none
      else none

def respGrow (t : List Char) (q e : Nat) : Option (Nat × Nat × Nat) :=
  respGrowF t q (t.length + 1 - e) e

/-- One `finditer` step of rule 4: the party matching the capture is the
payer. -/
def stage4step (t l1 l2 : List Char) (pos : Nat) :
    Option (Option PayDir × Nat) :=
  match
    (let e := wordEnd t pos
     if pos < e then respGrow t pos e else none) with
  | some (c1s, c1e, me) =>
    let payer := slice t c1s c1e
    if partyRel l1 payer then some (some .fwd, me)
    else if partyRel l2 payer then some (some .rev, me)
    else some (none, me)
  | none => none

/-- Rule 4. -/
def stage4 (tl l1 l2 : List Char) : Option PayDir :=
  iterScan tl (stage4step tl l1 l2) 0

/-! ## Resolver rule 5: mention counts near "pay"
(`re.findall(party + ".{0,100}pay", text_lower)`, a greedy bounded gap
that may not cross newlines). -/

/-- Greedy `.{0,100}pay` after position `s`: try gap `g` first, then
shorter gaps. -/
def payDescend (t : List Char) (s : Nat) : Nat → Option Nat
  | 0 => if matchAt t (chars "pay") s then some (s + 3) else none
  | g + 1 =>
    if matchAt t (chars "pay") (s + (g + 1)) then some (s + (g + 1) + 3)
    else payDescend t s g

/-- Number of non-overlapping `findall` matches of `party.{0,100}pay`
from `pos`. -/
def countNearPayF (t p : List Char) : Nat → Nat → Nat
  | 0, _ => 0
  | fuel + 1, pos =>
    if t.length < pos then 0
    else
      if matchAt t p pos then
        match
          payDescend t (pos + p.length)
            (min 100
              ((t.drop (pos + p.length)).takeWhile fun c => c ≠ '\n').length) with
        | some me => 1 + countNearPayF t p fuel (max me (pos + 1))
        | none => countNearPayF t p fuel (pos + 1)
      else countNearPayF t p fuel (pos + 1)

def countNearPay (t p : List Char) (pos : Nat) : Nat :=
  countNearPayF t p (t.length + 1 - pos) pos

/-- Rule 5: strictly more mentions near "pay" decides; ties fall
through. -/
def stage5 (tl l1 l2 : List Char) : Option PayDir :=
  let c1 := countNearPay tl l1 0
  let c2 := countNearPay tl l2 0
  if c1 > c2 then some .fwd
  else if c2 > c1 then some .rev
  else none

/-! ## The resolver cascade (`extract_payment_relationship`). -/

/-- Rules 2b, 3, 4, 5 and the rule-6 default, in cascade order. -/
def resolveLater (tl l1 l2 : List Char) : PayDir :=
  match stage2generic tl l1 l2 with
  | some d => d
  | none =>
    match stage3 tl l1 l2 with
    | some d => d
    | none =>
      match stage4 tl l1 l2 with
      | some d => d
      | none =>
        match stage5 tl l1 l2 with
        | some d => d
        | none => .fwd

/-- The full cascade on non-empty parties: which party pays. -/
def resolveCore (t p1 p2 : List Char) : PayDir :=
  let tl := lowerL t
  match stage1 tl (getEntityType p1) (getEntityType p2) with
  | some d => d
  | none =>
    match stage2named tl (lowerL p1) (lowerL p2) with
    | some d => d
    | none => resolveLater tl (lowerL p1) (lowerL p2)

/-- Python falsiness of an optional string (`None` or `""`). -/
def falsyS : Option String → Bool
  | none => true
  | some s => decide (s = "")

/-- `extract_payment_relationship(text, party1, party2)`: identity on an
absent party, otherwise the cascade decides the payer/payee order. -/
def extractPaymentRelationship (text : String) (party1 party2 : Option String) :
    Option String × Option String :=
  if falsyS party1 || falsyS party2 then (party1, party2)
  else
    match party1, party2 with
    | some a, some b =>
      match resolveCore text.data a.data b.data with
      | .fwd => (some a, some b)
      | .rev => (some b, some a)
    | _, _ => (party1, party2)

/-! ## Validator (`is_valid_entity_name`) -/

/-- The `entity_keywords` table (original casing). -/
def entityKeywords : List (List Char) :=
  [chars "County", chars "City", chars "State", chars "Agency",
   chars "Department", chars "District", chars "Board", chars "Commission",
   chars "Authority", chars "Corporation", chars "College",
   chars "University", chars "School", chars "Township", chars "Village",
   chars "Municipality"]

/-- `re.search(r"hereinafter.*to as$", name_lower)`. -/
def hereinToAs (ln : List Char) : Bool :=
  (List.range (ln.length + 1)).any fun p =>
    matchAt ln (chars "hereinafter") p &&
      (List.range (ln.length + 1)).any fun q =>
        decide (p + 11 ≤ q) && noNL ln (p + 11) q &&
          matchAt ln (chars "to as") q && atEnd ln (q + 5)

/-- `re.search(r"^\s*(and|or|the|a|an)\s*$", name_lower)`. -/
def bareConnective (ln : List Char) : Bool :=
  let w := wsEnd ln 0
  [chars "and", chars "or", chars "the", chars "a", chars "an"].any fun tok =>
    matchAt ln tok w && atEnd ln (wsEnd ln (w + tok.length))

/-- The `invalid_patterns` battery of the validator, searched on the
lower-cased name. -/
def invalidJunk (ln : List Char) : Bool :=
  matchAt ln (chars "county of each participant") 0 ||
  matchAt ln (chars "each participant") 0 ||
  matchAt ln (chars "participant to") 0 ||
  matchAt ln (chars "full legal name") 0 ||
  matchAt ln (chars "organization type") 0 ||
  (matchAt ln (chars "party ") 0 && isDigit (charAt ln 6)) ||
  hereinToAs ln ||
  matchAt ln (chars "to as") 0 ||
  bareConnective ln

/-- `is_valid_entity_name`.  Note that, as in the source, the final check
compares the *unlowered* stripped name against the *lower-cased* keyword
list. -/
def isValidEntityName (name : List Char) : Bool :=
  if name = [] ∨ (stripL name).length < 3 then false
  else if invalidJunk (lowerL name) then false
  else if decide (stripL name ∈ entityKeywords.map lowerL) then false
  else true

/-! ## Name cleaner (`clean_entity_name`, `extract_entity.py` variant) -/

/-- The `entity_stopwords` table, in configured order. -/
def entityStopwords : List (List Char) :=
  [chars "and", chars "whereas", chars "ss", chars "the", chars "that",
   chars "this", chars "said", chars "agree", chars "enter",
   chars "contract", chars "between", chars "wishes", chars "wish",
   chars "provides", chars "provide", chars "shall", chars "will",
   chars "herein", chars "hereinafter"]

/-- Tail of sentence pattern 1:
`\s+(?:is|are|was|were|will|shall|has|have)\s+` at `e`. -/
def sentTail1 (ln : List Char) (e : Nat) : Bool :=
  let f := wsEnd ln e
  e < f &&
    [chars "is", chars "are", chars "was", chars "were", chars "will",
     chars "shall", chars "has", chars "have"].any fun v =>
        matchAt ln v f && decide (f + v.length < wsEnd ln (f + v.length))

/-- Tail of sentence pattern 2:
`\s+(?:established|organized|incorporated|created)\s+`. -/
def sentTail2 (ln : List Char) (e : Nat) : Bool :=
  let f := wsEnd ln e
  e < f &&
    [chars "established", chars "organized", chars "incorporated",
     chars "created"].any fun v =>
        matchAt ln v f && decide (f + v.length < wsEnd ln (f + v.length))

/-- Tail of sentence pattern 3: `\s+(?:wishes?|wish)\s+(?:to|for)`. -/
def sentTail3 (ln : List Char) (e : Nat) : Bool :=
  let f := wsEnd ln e
  e < f &&
    [chars "wishes", chars "wishe", chars "wish"].any fun v =>
      matchAt ln v f &&
        (let z := wsEnd ln (f + v.length)
         decide (f + v.length < z) &&
           (matchAt ln (chars "to") z || matchAt ln (chars "for") z))

/-- Tail of sentence pattern 4: `\s+(?:provides?|provide)\s+(?:for|to)`. -/
def sentTail4 (ln : List Char) (e : Nat) : Bool :=
  let f := wsEnd ln e
  e < f &&
    [chars "provides", chars "provide"].any fun v =>
      matchAt ln v f &&
        (let z := wsEnd ln (f + v.length)
         decide (f + v.length < z) &&
           (matchAt ln (chars "for") z || matchAt ln (chars "to") z))

/-- Smallest end of the lazy anchored capture `^(.+?)` (no `DOTALL`) whose
tail matches; `re.match` semantics. -/
def lazyCap (ln : List Char) (tail : List Char → Nat → Bool) : Option Nat :=
  if charAt ln 0 = '\n' then none
  else scanA ln true (fun e => if tail ln e then some e else none) 1

/-- The sentence-fragment stage: first of the four `sentence_patterns`
that matches truncates to its stripped capture. -/
def applySentPatterns (name : List Char) : List Char :=
  let ln := lowerL name
  match
    (match lazyCap ln sentTail1 with
     | some e => some e
     | none =>
       match lazyCap ln sentTail2 with
       | some e => some e
       | none =>
         match lazyCap ln sentTail3 with
         | some e => some e
         | none => lazyCap ln sentTail4) with
  | some e => stripL (name.take e)
  | none => name

/-- One match attempt of `\s*\(?hereinafter[^)]*\)?\s*` at `p` (case
insensitive); returns the match end. -/
def hereinParenAt (t : List Char) (p : Nat) : Option Nat :=
  let w := wsEnd t p
  match
    (if charAt t w = '(' ∧ matchAtCI t (chars "hereinafter") (w + 1) then
       some (w + 12)
     else if matchAtCI t (chars "hereinafter") w then some (w + 11)
     else none) with
  | some q =>
    let r := runEnd t (fun c => c ≠ ')') q
    some (wsEnd t (if charAt t r = ')' then r + 1 else r))
  | none => none

/-- `re.sub(r"\s*\(?hereinafter[^)]*\)?\s*", " ", ·)` (global). -/
def subHereinLooseF (t : List Char) : Nat → Nat → List Char
  | 0, _ => []
  | fuel + 1, pos =>
    if t.length ≤ pos then []
    else
      match hereinParenAt t pos with
      | some e => ' ' :: subHereinLooseF t fuel (max e (pos + 1))
      | none => charAt t pos :: subHereinLooseF t fuel (pos + 1)

def subHereinLoose (t : List Char) (pos : Nat) : List Char :=
  subHereinLooseF t (t.length + 1 - pos) pos

/-- `re.sub(r"\s+hereinafter.*$", "", ·)`: remove a whitespace-led
`hereinafter` tail reaching the end. -/
def subTrailHerein (t : List Char) : List Char :=
  match
    scanA t false
      (fun p =>
        let f := wsEnd t p
        if p < f ∧ matchAtCI t (chars "hereinafter") f then
          let z := runEnd t (fun c => c ≠ '\n') (f + 11)
          if atEnd t z then some (t.take p ++ t.drop z) else none
        else none)
      0 with
  | some r => r
  | none => t

/-- `re.sub(r"\s+to as\s*$", "", ·)`. -/
def subToAs (t : List Char) : List Char :=
  match
    scanA t false
      (fun p =>
        let f := wsEnd t p
        if p < f ∧ matchAtCI t (chars "to as") f then
          let z := wsEnd t (f + 5)
          if atEnd t z then some (t.take p ++ t.drop z) else none
        else none)
      0 with
  | some r => r
  | none => t

/-- `\b w \b` occurrence of the (alphabetic) stopword `w` at `i`. -/
def boundedOccAt (ln w : List Char) (i : Nat) : Bool :=
  matchAt ln w i &&
    (decide (i = 0) || !isWordChar (charAt ln (i - 1))) &&
    !isWordChar (charAt ln (i + w.length))

/-- First (leftmost) `\b`-bounded occurrence of `w` in `ln`. -/
def firstOccOf (ln w : List Char) : Option Nat :=
  (List.range (ln.length + 1)).find? fun i => boundedOccAt ln w i

/-- The stopword loop: for each stopword in configured order, the first
that occurs (word-bounded) gives its leftmost occurrence. -/
def firstListedStop (ln : List Char) : Option Nat :=
  entityStopwords.findSome? fun w => firstOccOf ln w

/-- The stopword-truncation stage: keep only the part before the found
stopword, stripped. -/
def stopwordCut (name : List Char) : List Char :=
  match firstListedStop (lowerL name) with
  | some i => stripL (name.take i)
  | none => name

/-- `re.sub(r"\s*[,;:]?\s*$", "", ·)`. -/
def subTrailPunctOpt (t : List Char) : List Char :=
  match
    scanA t false
      (fun p =>
        let w1 := wsEnd t p
        let z :=
          if charAt t w1 = ',' ∨ charAt t w1 = ';' ∨ charAt t w1 = ':' then
            wsEnd t (w1 + 1)
          else w1
        if atEnd t z then some (t.take p ++ t.drop z) else none)
      0 with
  | some r => r
  | none => t

/-- `re.sub(r"\bss\s*$", "", ·, flags=IGNORECASE)`. -/
def subTrailSS (t : List Char) : List Char :=
  match
    scanA t false
      (fun p =>
        if (decide (p = 0) || !isWordChar (charAt t (p - 1))) ∧
            matchAtCI t (chars "ss") p ∧ atEnd t (wsEnd t (p + 2)) then
          some (t.take p ++ t.drop (wsEnd t (p + 2)))
        else none)
      0 with
  | some r => r
  | none => t

/-- `re.sub(r"\s+State of Iowa$", "", ·, flags=IGNORECASE)`. -/
def subStateIowa (t : List Char) : List Char :=
  match
    scanA t false
      (fun p =>
        let f := wsEnd t p
        if p < f ∧ matchAtCI t (chars "state of iowa") f ∧ atEnd t (f + 13) then
          some (t.take p ++ t.drop (f + 13))
        else none)
      0 with
  | some r => r
  | none => t

/-- `re.sub(r"\s+(?:Office of|Department of)\s*$", "", ·, IGNORECASE)`. -/
def subOfficeDept (t : List Char) : List Char :=
  match
    scanA t false
      (fun p =>
        let f := wsEnd t p
        if p < f then
          if matchAtCI t (chars "office of") f ∧ atEnd t (wsEnd t (f + 9)) then
            some (t.take p ++ t.drop (wsEnd t (f + 9)))
          else if matchAtCI t (chars "department of") f ∧
              atEnd t (wsEnd t (f + 13)) then
            some (t.take p ++ t.drop (wsEnd t (f + 13)))
          else none
        else none)
      0 with
  | some r => r
  | none => t

/-- Upper-case one ASCII character. -/
def upperChar (c : Char) : Char :=
  if 'a' ≤ c ∧ c ≤ 'z' then Char.ofNat (c.toNat - 32) else c

/-- Python `str.isupper` on ASCII. -/
def pyIsUpper (l : List Char) : Bool :=
  l.any isAlpha && l.all fun c => !isLowerAlpha c

/-- Python `str.islower` on ASCII. -/
def pyIsLower (l : List Char) : Bool :=
  l.any isAlpha && l.all fun c => !isUpperAlpha c

/-- Python `str.capitalize` on ASCII. -/
def capitalizeW : List Char → List Char
  | [] => []
  | c :: rest => upperChar c :: lowerL rest

/-- The title-casing stage: uniformly upper- or lower-case names are
re-cased word by word, keeping "of"/"and"/"the" lower. -/
def titleCaseStage (name : List Char) : List Char :=
  if pyIsUpper name || pyIsLower name then
    List.intercalate [' ']
      ((splitWS name).map fun w =>
        if decide (lowerL w ∈ [chars "of", chars "and", chars "the"]) then
          lowerL w
        else capitalizeW w)
  else name

/-- `KW\s+of\s+[\w\s]+` at `pos` of the lower-cased text: returns the
greedy match end. -/
def kwOfScan (ln kw : List Char) (pos : Nat) : Option Nat :=
  if matchAt ln kw pos then
    let w1 := wsEnd ln (pos + kw.length)
    if pos + kw.length < w1 ∧ matchAt ln (chars "of") w1 then
      let e := runEnd ln (fun c => isWordChar c || isWS c) (w1 + 2)
      if isWS (charAt ln (w1 + 2)) ∧ w1 + 2 + 2 ≤ e then some e else none
    else none
  else none

/-- The over-80-characters re-extraction stage
(`^(City|County|Town|Village|Township|Agency|Department|District)`
`\s+of\s+[\w\s]+`, `re.match`, group 0). -/
def longNameRecut (name : List Char) : List Char :=
  if 80 < name.length then
    match
      [chars "city", chars "county", chars "town", chars "village",
       chars "township", chars "agency", chars "department",
       chars "district"].findSome? (fun kw => kwOfScan (lowerL name) kw 0) with
    | some e => name.take e
    | none => name
  else name

/-- `clean_entity_name` (`extract_entity.py`). -/
def cleanEntityName (name : List Char) : List Char :=
  if name = [] then name
  else
    longNameRecut
      (stripL
        (collapseWS
          (titleCaseStage
            (subOfficeDept
              (subStateIowa
                (subTrailSS
                  (subTrailPunctOpt
                    (stopwordCut
                      (subToAs
                        (subTrailHerein
                          (subHereinLoose
                            (applySentPatterns (stripL name)) 0)))))))))))

/-! ## Entity extraction (`extract_entities`, `extract_entity.py`) -/

/-- Numeric value of a digit string. -/
def natOfDigits (ds : List Char) : Nat :=
  ds.foldl (fun acc c => acc * 10 + (c.toNat - 48)) 0

/-- `re.match(r"Party\s+(\d+)\s*$", line.strip(), re.IGNORECASE)`,
returning the captured party number. -/
def parsePartyHeader (line : List Char) : Option Nat :=
  let s := lowerL (stripL line)
  if matchAt s (chars "party") 0 then
    let a := wsEnd s 5
    if 5 < a then
      let b := runEnd s isDigit a
      if a < b ∧ wsEnd s b = s.length then some (natOfDigits (slice s a b))
      else none
    else none
  else none

/-- `re.match(r"Party\s+\d+", candidate, re.IGNORECASE)` (prefix only). -/
def partyHeaderish (cand : List Char) : Bool :=
  let lc := lowerL cand
  matchAt lc (chars "party") 0 && decide (5 < wsEnd lc 5) &&
    isDigit (charAt lc (wsEnd lc 5))

/-- `re.match(r"^\d+$", candidate)`. -/
def allDigitsLine (cand : List Char) : Bool :=
  !cand.isEmpty && cand.all isDigit

/-- `re.match(r"^[A-Z]{2,3}$", candidate)`. -/
def stateAbbr (cand : List Char) : Bool :=
  (decide (cand.length = 2) || decide (cand.length = 3)) &&
    cand.all isUpperAlpha

/-- The Tier-A skip conditions on a stripped candidate line. -/
def candidateOk (cand : List Char) : Bool :=
  !cand.isEmpty && decide (2 < cand.length) && !partyHeaderish cand &&
    decide (cand ∉ entityKeywords) && !allDigitsLine cand && !stateAbbr cand

/-- Whitespace normalisation of an accepted candidate
(newline/return replacement, `\s+` collapse, strip). -/
def normWS (l : List Char) : List Char := stripL (collapseWS l)

/-- Try the line at offset `off` after the `Party N` header line `i`. -/
def tryOffset (lines : List (List Char)) (i off : Nat) : Option (List Char) :=
  if i + off < lines.length then
    let cand := stripL (lines.getD (i + off) [])
    if candidateOk cand then
      let nm := normWS cand
      if isValidEntityName nm then some nm else none
    else none
  else none

/-- The offset loop (`for offset in [1, 2]`): first valid name wins; an
invalid or skipped candidate falls through to the next offset. -/
def pickCandidate (lines : List (List Char)) (i : Nat) : Option (List Char) :=
  match tryOffset lines i 1 with
  | some nm => some nm
  | none => tryOffset lines i 2

/-- Tier A: gather `Party N` names; only the first accepted name per
index is kept. -/
def tierAGather (lines : List (List Char)) : List (Nat × List Char) :=
  (List.range lines.length).foldl
    (fun acc i =>
      match parsePartyHeader (lines.getD i []) with
      | some num =>
        if i + 1 < lines.length then
          match pickCandidate lines i with
          | some nm =>
            if (acc.lookup num).isNone then acc ++ [(num, nm)] else acc
          | none => acc
        else acc
      | none => acc)
    []

/-! Tier B: the "entered into … by and between" clause.  The three
`agreement_patterns` are realised with small backtracking parser
combinators in the engine's priority order (`k` is the continuation). -/

/-- Greedy-first descent: try `k` at `hi`, `hi - 1`, …, `lo + 1`. -/
def tryDesc (k : Nat → Option α) : Nat → Nat → Option α
  | 0, _ => none
  | hi + 1, lo =>
    if hi + 1 ≤ lo then none
    else
      match k (hi + 1) with
      | some a => some a
      | none => tryDesc k hi lo

/-- `\s+` (greedy, with give-back): positions after at least one
whitespace character. -/
def pWsPlus (lt : List Char) (k : Nat → Option α) (p : Nat) : Option α :=
  tryDesc k (wsEnd lt p) p

/-- `\s*` (greedy, with give-back). -/
def pWsStar (lt : List Char) (k : Nat → Option α) (p : Nat) : Option α :=
  match tryDesc k (wsEnd lt p) p with
  | some a => some a
  | none => k p

/-- A literal. -/
def pLit (lt lit : List Char) (k : Nat → Option α) (p : Nat) : Option α :=
  if matchAt lt lit p then k (p + lit.length) else none

/-- A greedy optional group. -/
def pOpt (sub : (Nat → Option α) → Nat → Option α) (k : Nat → Option α)
    (p : Nat) : Option α :=
  match sub k p with
  | some a => some a
  | none => k p

/-- `[,\s]+` (greedy, with give-back). -/
def pCommaWs (lt : List Char) (k : Nat → Option α) (p : Nat) : Option α :=
  tryDesc k (runEnd lt (fun c => c = ',' || isWS c) p) p

/-- `(?:\d{4}[,\s]+)?`. -/
def pOptYear (lt : List Char) (k : Nat → Option α) : Nat → Option α :=
  pOpt
    (fun k2 p =>
      if isDigit (charAt lt p) ∧ isDigit (charAt lt (p + 1)) ∧
          isDigit (charAt lt (p + 2)) ∧ isDigit (charAt lt (p + 3)) then
        pCommaWs lt k2 (p + 4)
      else none)
    k

/-- `by\s+(?:and\s+)?between\s+`. -/
def pByBetween (lt : List Char) (k : Nat → Option α) : Nat → Option α :=
  pLit lt (chars "by")
    (pWsPlus lt
      (pOpt (fun k2 => pLit lt (chars "and") (pWsPlus lt k2))
        (pLit lt (chars "between") (pWsPlus lt k))))

/-- `(?:\d{1,2}[a-z]{2}\s+day\s+of\s+)?` (the two-digit variant is tried
first; `[a-z]` is case-insensitive here). -/
def pOptDayOf (lt : List Char) (k : Nat → Option α) : Nat → Option α :=
  pOpt
    (fun k2 p =>
      ((if isDigit (charAt lt p) ∧ isDigit (charAt lt (p + 1)) then [p + 2]
        else []) ++
       (if isDigit (charAt lt p) then [p + 1] else [])).findSome? fun q =>
        if isLowerAlpha (charAt lt q) ∧ isLowerAlpha (charAt lt (q + 1)) then
          pWsPlus lt
            (pLit lt (chars "day")
              (pWsPlus lt (pLit lt (chars "of") (pWsPlus lt k2)))) (q + 2)
        else none)
    k

/-- `(?:\w+\s+)?`. -/
def pOptWordWs (lt : List Char) (k : Nat → Option α) : Nat → Option α :=
  pOpt
    (fun k2 p =>
      if p < wordEnd lt p then pWsPlus lt k2 (wordEnd lt p) else none)
    k

/-- The shared tail of agreement patterns 2 and 3 after `made`:
`(?:and\s+entered\s+into)?\s+(?:this\s+)?(?:\d{1,2}[a-z]{2}\s+day\s+of`
`\s+)?(?:\w+\s+)?(?:\d{4}[,\s]+)?by\s+(?:and\s+)?between\s+`
(note: the group before `\s+` means two whitespace runs in a row when the
group is absent). -/
def pMadeTail (lt : List Char) (k : Nat → Option α) : Nat → Option α :=
  pWsPlus lt
    (pOpt
      (fun k2 =>
        pLit lt (chars "and")
          (pWsPlus lt
            (pLit lt (chars "entered") (pWsPlus lt (pLit lt (chars "into") k2)))))
      (pWsPlus lt
        (pOpt (fun k2 => pLit lt (chars "this") (pWsPlus lt k2))
          (pOptDayOf lt (pOptWordWs lt (pOptYear lt (pByBetween lt k)))))))

/-- Agreement pattern 1 head:
`This\s+agreement\s+is\s+entered\s+into\s+this\s+(?:\d{4}[,\s]+)?by…`. -/
def agrHead1 (lt : List Char) (k : Nat → Option α) : Nat → Option α :=
  pLit lt (chars "this")
    (pWsPlus lt
      (pLit lt (chars "agreement")
        (pWsPlus lt
          (pLit lt (chars "is")
            (pWsPlus lt
              (pLit lt (chars "entered")
                (pWsPlus lt
                  (pLit lt (chars "into")
                    (pWsPlus lt
                      (pLit lt (chars "this")
                        (pWsPlus lt (pOptYear lt (pByBetween lt k)))))))))))))

/-- Agreement pattern 2 head:
`This\s+agreement\s+is\s+made\s+…`. -/
def agrHead2 (lt : List Char) (k : Nat → Option α) : Nat → Option α :=
  pLit lt (chars "this")
    (pWsPlus lt
      (pLit lt (chars "agreement")
        (pWsPlus lt
          (pLit lt (chars "is")
            (pWsPlus lt (pLit lt (chars "made") (pMadeTail lt k)))))))

/-- Agreement pattern 3 head:
`This\s+agreement\s+\(?agreement\)?\s+is\s+made\s+…`. -/
def agrHead3 (lt : List Char) (k : Nat → Option α) : Nat → Option α :=
  pLit lt (chars "this")
    (pWsPlus lt
      (pLit lt (chars "agreement")
        (pWsPlus lt
          (pOpt (fun k2 => pLit lt (chars "(") k2)
            (pLit lt (chars "agreement")
              (pOpt (fun k2 => pLit lt (chars ")") k2)
                (pWsPlus lt
                  (pLit lt (chars "is")
                    (pWsPlus lt
                      (pLit lt (chars "made") (pMadeTail lt k)))))))))))

/-- The separator `(?:,\s+and\s+|\s+and\s+)` (comma variant first). -/
def sepParse (lt : List Char) (k : Nat → Option α) (e1 : Nat) : Option α :=
  match
    pLit lt (chars ",")
      (pWsPlus lt (pLit lt (chars "and") (pWsPlus lt k))) e1 with
  | some a => some a
  | none => pWsPlus lt (pLit lt (chars "and") (pWsPlus lt k)) e1

/-- One of the terminators
`(?:\(hereinafter|,\s+and\s+the\s+[A-Z]|\.\s+Whereas|\.\s*$)` at `e2`
(under `IGNORECASE`, `[A-Z]` matches any letter). -/
def termAt (lt : List Char) (e2 : Nat) : Bool :=
  matchAt lt (chars "(hereinafter") e2 ||
  (pLit lt (chars ",")
    (pWsPlus lt
      (pLit lt (chars "and")
        (pWsPlus lt
          (pLit lt (chars "the")
            (pWsPlus lt fun q =>
              if isAlpha (charAt lt q) then some () else none))))) e2).isSome ||
  (pLit lt (chars ".")
    (pWsPlus lt (pLit lt (chars "whereas") fun _ => some ())) e2).isSome ||
  (pLit lt (chars ".")
    (pWsStar lt fun q => if atEnd lt q then some () else none) e2).isSome

/-- One agreement-pattern match attempt at start `s`: head, then the lazy
capture 1, the separator, the lazy capture 2, a terminator.  Returns the
two capture intervals. -/
def agreementAt (lt : List Char)
    (head : (Nat → Option (Nat × Nat × Nat × Nat)) → Nat →
      Option (Nat × Nat × Nat × Nat)) (s : Nat) :
    Option (Nat × Nat × Nat × Nat) :=
  head
    (fun c1 =>
      scanA lt false
        (fun e1 =>
          sepParse lt
            (fun c2 =>
              scanA lt false
                (fun e2 => if termAt lt e2 then some (c1, e1, c2, e2) else none)
                (c2 + 1))
            e1)
        (c1 + 1))
    s

/-- `re.search` of one agreement pattern: leftmost start wins. -/
def agreementSearch (lt : List Char)
    (head : (Nat → Option (Nat × Nat × Nat × Nat)) → Nat →
      Option (Nat × Nat × Nat × Nat)) :
    Option (Nat × Nat × Nat × Nat) :=
  scanA lt false (fun s => agreementAt lt head s) 0

/-- `re.sub(r"\s*\(hereinafter[^)]*\)", "", ·, IGNORECASE)` (global; the
closing parenthesis is required here). -/
def subHereinStrictF (t : List Char) : Nat → Nat → List Char
  | 0, _ => []
  | fuel + 1, pos =>
    if t.length ≤ pos then []
    else
      match
        (let w := wsEnd t pos
         if charAt t w = '(' ∧ matchAtCI t (chars "hereinafter") (w + 1) then
           let r := runEnd t (fun c => c ≠ ')') (w + 12)
           if charAt t r = ')' then some (r + 1) else none
         else none) with
      | some e => subHereinStrictF t fuel (max e (pos + 1))
      | none => charAt t pos :: subHereinStrictF t fuel (pos + 1)

def subHereinStrict (t : List Char) (pos : Nat) : List Char :=
  subHereinStrictF t (t.length + 1 - pos) pos

/-- `re.sub(r":\s*[A-Z][a-z]+\s*:", " ", ·)` (case sensitive, global). -/
def subColonNoiseF (t : List Char) : Nat → Nat → List Char
  | 0, _ => []
  | fuel + 1, pos =>
    if t.length ≤ pos then []
    else
      match
        (if charAt t pos = ':' then
           let w := wsEnd t (pos + 1)
           if isUpperAlpha (charAt t w) then
             let r := runEnd t isLowerAlpha (w + 1)
             if w + 1 < r then
               let z := wsEnd t r
               if charAt t z = ':' then some (z + 1) else none
             else none
           else none
         else none) with
      | some e => ' ' :: subColonNoiseF t fuel (max e (pos + 1))
      | none => charAt t pos :: subColonNoiseF t fuel (pos + 1)

def subColonNoise (t : List Char) (pos : Nat) : List Char :=
  subColonNoiseF t (t.length + 1 - pos) pos

/-- `re.sub(r"\s*[,;:]+\s*$", "", ·)`. -/
def subTrailPunctPlus (t : List Char) : List Char :=
  match
    scanA t false
      (fun p =>
        let w1 := wsEnd t p
        let r := runEnd t (fun c => c = ',' || c = ';' || c = ':') w1
        if w1 < r ∧ atEnd t (wsEnd t r) then
          some (t.take p ++ t.drop (wsEnd t r))
        else none)
      0 with
  | some r => r
  | none => t

/-- `re.sub(r"\s*,\s*Iowa\s*$", "", ·, IGNORECASE)`. -/
def subCommaIowa (t : List Char) : List Char :=
  match
    scanA t false
      (fun p =>
        let w1 := wsEnd t p
        if charAt t w1 = ',' then
          let w2 := wsEnd t (w1 + 1)
          if matchAtCI t (chars "iowa") w2 ∧ atEnd t (wsEnd t (w2 + 4)) then
            some (t.take p ++ t.drop (wsEnd t (w2 + 4)))
          else none
        else none)
      0 with
  | some r => r
  | none => t

/-- The entity clean-up applied to each captured Tier-B span. -/
def cleanupTierB (e : List Char) : List Char :=
  stripL
    (collapseWS
      (stripL
        (subCommaIowa
          (stripL
            (subTrailPunctPlus
              (stripL (subColonNoise (stripL (subHereinStrict e 0)) 0)))))))

/-- Tier B: try the three agreement patterns in order, clean both
captures, and apply the length-over-3 acceptance guards. -/
def tierB (t : List Char) : Option (List Char × Option (List Char)) :=
  let lt := lowerL t
  match
    (match agreementSearch lt (agrHead1 lt) with
     | some r => some r
     | none =>
       match agreementSearch lt (agrHead2 lt) with
       | some r => some r
       | none => agreementSearch lt (agrHead3 lt)) with
  | some (c1s, c1e, c2s, c2e) =>
    let e1 := cleanupTierB (stripL (slice t c1s c1e))
    let e2 := cleanupTierB (stripL (slice t c2s c2e))
    if !e1.isEmpty ∧ 3 < e1.length ∧ !e2.isEmpty ∧ 3 < e2.length then
      some (e1, some e2)
    else if !e1.isEmpty ∧ 3 < e1.length then some (e1, none)
    else none
  | none => none

/-- Tier C `findall` of
`(?:City|County|Town|Village|Township)\s+of\s+[\w\s]+` (case
insensitive), in match order, non-overlapping. -/
def tierCMatchesF (t lt : List Char) : Nat → Nat → List (List Char)
  | 0, _ => []
  | fuel + 1, pos =>
    if t.length < pos then []
    else
      match
        [chars "city", chars "county", chars "town", chars "village",
         chars "township"].findSome? (fun kw => kwOfScan lt kw pos) with
      | some e => slice t pos e :: tierCMatchesF t lt fuel (max e (pos + 1))
      | none => tierCMatchesF t lt fuel (pos + 1)

def tierCMatches (t lt : List Char) (pos : Nat) : List (List Char) :=
  tierCMatchesF t lt (t.length + 1 - pos) pos

/-- Order-preserving de-duplication (exact string equality). -/
def dedup (ms : List (List Char)) : List (List Char) :=
  ms.foldl (fun acc m => if decide (m ∈ acc) then acc else acc ++ [m]) []

/-- Tier C: first two distinct matches. -/
def tierC (t : List Char) : Option (List Char × Option (List Char)) :=
  match dedup (tierCMatches t (lowerL t) 0) with
  | [] => none
  | [x] => some (x, none)
  | x :: y :: _ => some (x, some y)

/-- `extract_entities` on the character-list representation. -/
def extractEntitiesCore (t : List Char) :
    Option (List Char) × Option (List Char) :=
  let parties := tierAGather (splitNL t)
  match parties.lookup 1, parties.lookup 2 with
  | some n1, some n2 => (some n1, some n2)
  | some n1, none => (some n1, none)
  | none, some n2 => (none, some n2)
  | none, none =>
    match tierB t with
    | some (e1, oe2) => (some e1, oe2)
    | none =>
      match tierC t with
      | some (e1, oe2) => (some e1, oe2)
      | none => (none, none)

/-- `extract_entities`. -/
def extractEntities (text : String) : Option String × Option String :=
  match extractEntitiesCore text.data with
  | (a, b) => (a.map String.mk, b.map String.mk)

/-! ## Preprocessor (`preprocess_text`) -/

/-- The `ocr_corrections` table (patterns lower-cased: matching is case
insensitive), in iteration order. -/
def ocrCorrections : List (List Char × List Char) :=
  [(chars "lowa", chars "Iowa"), (chars "des l/loines", chars "Des Moines"),
   (chars "lvlarshall", chars "Marshall"), (chars "countv", chars "County"),
   (chars "citv", chars "City"), (chars "chickasaw", chars "Chickasaw")]

/-- Global, case-insensitive, `\b`-delimited substitution of one OCR
correction; `prevW` tracks whether the previous original character was a
word character. -/
def subWordBF (pat repl : List Char) : Nat → Bool → List Char → List Char
  | 0, _, l => l
  | _ + 1, _, [] => []
  | fuel + 1, prevW, c :: rest =>
    if !prevW ∧ matchAtCI (c :: rest) pat 0 ∧
        !isWordChar (charAt (c :: rest) pat.length) then
      repl ++
        subWordBF pat repl fuel
          (isWordChar (charAt (c :: rest) (pat.length - 1)))
          (rest.drop (pat.length - 1))
    else c :: subWordBF pat repl fuel (isWordChar c) rest

def subWordB (pat repl : List Char) (prevW : Bool) (l : List Char) :
    List Char :=
  subWordBF pat repl l.length prevW l

/-- `preprocess_text`: empty input passes through; otherwise the ordered
OCR corrections are applied. -/
def preprocessText (text : String) : String :=
  if text = "" then text
  else
    String.mk
      (ocrCorrections.foldl (fun acc pr => subWordB pr.1 pr.2 false acc)
        text.data)

/-! ## Amount extraction (`extract_payment_details.py`:
`clean_amount`, `extract_amount`).  Values are exact rationals. -/

/-- Collecting `finditer` loop: all matches, non-overlapping, in text
order. -/
def iterCollectF (t : List Char) (step : Nat → Option (α × Nat)) :
    Nat → Nat → List α
  | 0, _ => []
  | fuel + 1, pos =>
    if t.length < pos then []
    else
      match step pos with
      | some (a, e) => a :: iterCollectF t step fuel (max e (pos + 1))
      | none => iterCollectF t step fuel (pos + 1)

def iterCollect (t : List Char) (step : Nat → Option (α × Nat)) (pos : Nat) :
    List α :=
  iterCollectF t step (t.length + 1 - pos) pos

/-- An exact monetary value `num / den` (`den` positive).  Python's
floats only enter this pipeline as decimal literals and products with
integers, which this type represents exactly while remaining computable
by the kernel (`ℚ`'s normalising arithmetic is not). -/
structure Amt : Type where
  num : Int
  den : Nat
  pos : 0 < den
deriving DecidableEq

/-- The rational value of an `Amt`. -/
def Amt.toRat (a : Amt) : ℚ := (a.num : ℚ) / (a.den : ℚ)

def Amt.zero : Amt := ⟨0, 1, Nat.one_pos⟩

def Amt.ofNat (n : Nat) : Amt := ⟨n, 1, Nat.one_pos⟩

def Amt.mul (a b : Amt) : Amt :=
  ⟨a.num * b.num, a.den * b.den, Nat.mul_pos a.pos b.pos⟩

/-- `a < b` on values (cross multiplication; denominators positive). -/
def Amt.lt (a b : Amt) : Bool :=
  decide (a.num * (b.den : Int) < b.num * (a.den : Int))

/-- `a ≤ b` on values. -/
def Amt.le (a b : Amt) : Bool :=
  decide (a.num * (b.den : Int) ≤ b.num * (a.den : Int))

/-- Python `float` on the strings reachable from the amount captures
(`digits* ('.' digits*)?` with at least one digit; anything else fails). -/
def parseDecimal (l : List Char) : Option Amt :=
  let ip := l.takeWhile isDigit
  match l.drop ip.length with
  | [] =>
    if ip.isEmpty then none else some ⟨(natOfDigits ip : Int), 1, Nat.one_pos⟩
  | c :: frac =>
    if c = '.' ∧ frac.all isDigit ∧ (¬ ip.isEmpty ∨ ¬ frac.isEmpty) then
      some
        ⟨(natOfDigits ip : Int) * (10 : Int) ^ frac.length +
            (natOfDigits frac : Int),
          10 ^ frac.length, Nat.pos_pow_of_pos _ (by decide)⟩
    else none

/-- `clean_amount`: strip commas, parse; a parse failure contributes
`0.0` instead of raising. -/
def cleanAmount (s : List Char) : Amt :=
  match parseDecimal (stripL (s.filter fun c => c ≠ ',')) with
  | some q => q
  | none => Amt.zero

/-- `\$\s*([\d,]+\.?\d*)` at `pos` of the lower-cased text: the capture
interval (whose end is also the match end). -/
def dollarNum (lt : List Char) (pos : Nat) : Option (Nat × Nat) :=
  if charAt lt pos = '$' then
    let a := wsEnd lt (pos + 1)
    let d := runEnd lt (fun c => isDigit c || c = ',') a
    if a < d then
      some (a, if charAt lt d = '.' then runEnd lt isDigit (d + 1) else d)
    else none
  else none

/-- Match data of one `amount_patterns` match:
(capture start, capture end, match start, match end). -/
abbrev AmtSpan := Nat × Nat × Nat × Nat

/-- Pattern 1, `\$\s*(?P<amount>[\d,]+\.?\d*)`. -/
def amtStep1 (lt : List Char) (pos : Nat) : Option (AmtSpan × Nat) :=
  match dollarNum lt pos with
  | some (a, e) => some ((a, e, pos, e), e)
  | none => none

/-- Pattern 2, `(?P<amount>[\d,]+\.?\d*)\s+[Dd]ollars?` (case
insensitive anyway). -/
def amtStep2 (lt : List Char) (pos : Nat) : Option (AmtSpan × Nat) :=
  let d := runEnd lt (fun c => isDigit c || c = ',') pos
  if pos < d then
    let tail := fun (e : Nat) =>
      let w := wsEnd lt e
      if e < w ∧ matchAt lt (chars "dollar") w then
        some (e, if charAt lt (w + 6) = 's' then w + 7 else w + 6)
      else none
    match
      (match (if charAt lt d = '.' then tail (runEnd lt isDigit (d + 1)) else none) with
       | some r => some r
       | none => tail d) with
    | some (e, me) => some ((pos, e, pos, me), me)
    | none => none
  else none

/-- Pattern 3, `sum of \$\s*(…)`. -/
def amtStep3 (lt : List Char) (pos : Nat) : Option (AmtSpan × Nat) :=
  if matchAt lt (chars "sum of ") pos then
    match dollarNum lt (pos + 7) with
    | some (a, e) => some ((a, e, pos, e), e)
    | none => none
  else none

/-- Pattern 4, `amount of \$\s*(…)`. -/
def amtStep4 (lt : List Char) (pos : Nat) : Option (AmtSpan × Nat) :=
  if matchAt lt (chars "amount of ") pos then
    match dollarNum lt (pos + 10) with
    | some (a, e) => some ((a, e, pos, e), e)
    | none => none
  else none

/-- Pattern 5, `[Tt]otal [Ss]um[:\s]+\$\s*(…)`. -/
def amtStep5 (lt : List Char) (pos : Nat) : Option (AmtSpan × Nat) :=
  if matchAt lt (chars "total sum") pos then
    let r := runEnd lt (fun c => c = ':' || isWS c) (pos + 9)
    if pos + 9 < r then
      match dollarNum lt r with
      | some (a, e) => some ((a, e, pos, e), e)
      | none => none
    else none
  else none

/-- Context priority of a direct amount match spanning `[ms, me)`:
±100 characters, lower-cased keyword containment. -/
def prioOf (t : List Char) (ms me : Nat) : ℤ :=
  let ctx := lowerL (slice t (ms - 100) (min t.length (me + 100)))
  (if containsSub ctx (chars "total") then 3 else 0) +
    (if containsSub ctx (chars "annual") || containsSub ctx (chars "yearly")
     then 2 else 0) +
    (if containsSub ctx (chars "sum") then 2 else 0) +
    (if containsSub ctx (chars "contract") then 1 else 0) -
    (if containsSub ctx (chars "per capita") ||
        containsSub ctx (chars "per hour") ||
        containsSub ctx (chars "per month") then 2 else 0)

/-- A direct amount candidate: only positive parsed values are kept. -/
def amtCand (t : List Char) (sp : AmtSpan) : Option (Amt × ℤ) :=
  match sp with
  | (cs, ce, ms, me) =>
    let v := cleanAmount (slice t cs ce)
    if Amt.lt Amt.zero v then some (v, prioOf t ms me) else none

/-- `\$\s*(?P<rate>[\d,]+\.?\d*)\s+per\s+UNIT` at `pos` (case sensitive
apart from the `[Cc]`-style first letter of the unit): capture interval
and match end. -/
def perUnitAt (t unitLow unitCap : List Char) (pos : Nat) :
    Option ((Nat × Nat) × Nat) :=
  if charAt t pos = '$' then
    let a := wsEnd t (pos + 1)
    let d := runEnd t (fun c => isDigit c || c = ',') a
    if a < d then
      let tail := fun (e : Nat) =>
        let w := wsEnd t e
        if e < w ∧ matchAt t (chars "per") w then
          let w2 := wsEnd t (w + 3)
          if w + 3 < w2 ∧
              (matchAt t unitLow w2 || matchAt t unitCap w2) then
            some ((a, e), w2 + unitLow.length)
          else none
        else none
      match (if charAt t d = '.' then tail (runEnd t isDigit (d + 1)) else none) with
      | some r => some r
      | none => tail d
    else none
  else none

/-- Leftmost `re.search` of `(?:census|population)[:\s]+(?P<pop>[\d,]+)`
(case insensitive) on a context slice; the captured number string. -/
def popSearchA (c : List Char) : Option (List Char) :=
  let lc := lowerL c
  scanA lc false
    (fun p =>
      match
        (if matchAt lc (chars "census") p then some (p + 6)
         else if matchAt lc (chars "population") p then some (p + 10)
         else none) with
      | some q =>
        let r := runEnd lc (fun ch => ch = ':' || isWS ch) q
        if q < r then
          let d := runEnd lc (fun ch => isDigit ch || ch = ',') r
          if r < d then some (slice c r d) else none
        else none
      | none => none)
    0

/-- Leftmost `re.search` of `(?P<pop>[\d,]+)\s+(?:census|population)`. -/
def popSearchB (c : List Char) : Option (List Char) :=
  let lc := lowerL c
  scanA lc false
    (fun p =>
      let d := runEnd lc (fun ch => isDigit ch || ch = ',') p
      if p < d then
        let w := wsEnd lc d
        if d < w ∧
            (matchAt lc (chars "census") w || matchAt lc (chars "population") w)
        then some (slice c p d)
        else none
      else none)
    0

/-- The per-capita derived total: the two `pop_patterns` are tried in
order; only a population strictly between 50 and 100000 is accepted
(an out-of-range first match falls through to the second pattern). -/
def capitaCand (t : List Char) (sp : (Nat × Nat) × Nat) (ms : Nat) :
    Option (Amt × ℤ) :=
  match sp with
  | ((cs, ce), me) =>
    let rate := cleanAmount (slice t cs ce)
    let ctx := slice t (ms - 500) (min t.length (me + 500))
    let tryB :=
      match popSearchB ctx with
      | some pc =>
        let pop := cleanAmount pc
        if Amt.lt (Amt.ofNat 50) pop ∧ Amt.lt pop (Amt.ofNat 100000) then
          some (Amt.mul rate pop, 2)
        else none
      | none => none
    match popSearchA ctx with
    | some pc =>
      let pop := cleanAmount pc
      if Amt.lt (Amt.ofNat 50) pop ∧ Amt.lt pop (Amt.ofNat 100000) then
        some (Amt.mul rate pop, 2)
      else tryB
    | none => tryB

/-- The per-hour derived total: leftmost `([\d,]+)\s+hours?` within ±200
characters; only 0 < hours < 10000 accepted. -/
def hourCand (t : List Char) (sp : (Nat × Nat) × Nat) (ms : Nat) :
    Option (Amt × ℤ) :=
  match sp with
  | ((cs, ce), me) =>
    let rate := cleanAmount (slice t cs ce)
    let ctx := slice t (ms - 200) (min t.length (me + 200))
    let lc := lowerL ctx
    match
      scanA lc false
        (fun p =>
          let d := runEnd lc (fun ch => isDigit ch || ch = ',') p
          if p < d then
            let w := wsEnd lc d
            if d < w ∧ matchAt lc (chars "hour") w then some (slice ctx p d)
            else none
          else none)
        0 with
    | some hs =>
      let hours := cleanAmount hs
      if Amt.lt Amt.zero hours ∧ Amt.lt hours (Amt.ofNat 10000) then
        some (Amt.mul rate hours, 1)
      else none
    | none => none

/-- All collected `(value, priority)` candidates of `extract_amount`, in
collection order: the five direct patterns, then per-capita, per-month,
per-hour. -/
def collectAmounts (t : List Char) : List (Amt × ℤ) :=
  let lt := lowerL t
  (iterCollect lt (amtStep1 lt) 0).filterMap (amtCand t) ++
  (iterCollect lt (amtStep2 lt) 0).filterMap (amtCand t) ++
  (iterCollect lt (amtStep3 lt) 0).filterMap (amtCand t) ++
  (iterCollect lt (amtStep4 lt) 0).filterMap (amtCand t) ++
  (iterCollect lt (amtStep5 lt) 0).filterMap (amtCand t) ++
  (iterCollect t
      (fun pos =>
        match perUnitAt t (chars "capita") (chars "Capita") pos with
        | some sp => some ((sp, pos), sp.2)
        | none => none)
      0).filterMap (fun x => capitaCand t x.1 x.2) ++
  (iterCollect t
      (fun pos =>
        match perUnitAt t (chars "month") (chars "Month") pos with
        | some sp => some (sp, sp.2)
        | none => none)
      0).map
     (fun sp =>
       (Amt.mul (cleanAmount (slice t sp.1.1 sp.1.2)) (Amt.ofNat 12),
         (1 : ℤ))) ++
  (iterCollect t
      (fun pos =>
        match perUnitAt t (chars "hour") (chars "Hour") pos with
        | some sp => some ((sp, pos), sp.2)
        | none => none)
      0).filterMap (fun x => hourCand t x.1 x.2)

/-- The sort key order of `amounts.sort(key=λx.(x[1], x[0]),
reverse=True)`: `x` may come before `y` when its (priority, value) pair
is lexicographically at least `y`'s. -/
def amtGe (x y : Amt × ℤ) : Bool :=
  decide (y.2 < x.2) || (decide (y.2 = x.2) && Amt.le y.1 x.1)

/-- Stable insertion of `x` after all already-sorted elements that are
`amtGe x`. -/
def insertDesc (x : Amt × ℤ) : List (Amt × ℤ) → List (Amt × ℤ)
  | [] => [x]
  | y :: ys => if amtGe y x then y :: insertDesc x ys else x :: y :: ys

/-- A stable descending sort by (priority, value), the order
`amounts.sort(key=λx.(x[1], x[0]), reverse=True)` produces. -/
def sortDesc : List (Amt × ℤ) → List (Amt × ℤ)
  | [] => []
  | x :: xs => insertDesc x (sortDesc xs)

/-- `extract_amount`: sort the candidates by descending
(priority, value) and return the first value; `0.0` when none. -/
def extractAmountCore (t : List Char) : Amt :=
  match sortDesc (collectAmounts t) with
  | [] => Amt.zero
  | (v, _) :: _ => v

/-- `extract_amount` on a string. -/
def extractAmount (text : String) : Amt := extractAmountCore text.data

/-- The pair the resolver returns for a given direction. -/
def dirPair (p1 p2 : String) : PayDir → Option String × Option String
  | .fwd => (some p1, some p2)
  | .rev => (some p2, some p1)

/-- Modelled from the spec's words for comparison (not from the source):
the positionally earliest word-bounded occurrence of *any* configured
stopword in the lower-cased name — the truncation point the spec's
"first (earliest) occurrence of any configured stopword" describes. -/
def firstPosStop (ln : List Char) : Option Nat :=
  (List.range (ln.length + 1)).find? fun i =>
    entityStopwords.any fun w => boundedOccAt ln w i


/-- Witness text for the bounded-window theorem: the only co-occurrence
of "aa" and "bb" around a pay verb has a 101-character gap on the left
of the verb. -/
def c3text : String :=
  String.mk (chars "aa" ++ List.replicate 101 'x' ++ chars "shall pay bb")

/-- The rule-3 trigger phrase of the "payment made to" test, and its
lower-cased form. -/
def c5phrase : List Char := chars "Payment shall be made to City of Ames"

def c5phraseL : List Char := chars "payment shall be made to city of ames"

/-! ## Lemmas -/

theorem matchAt_nil {p : List Char} (i : Nat) (hp : p ≠ []) :
    matchAt [] p i = false := by
  simp only [matchAt, List.drop_nil, List.take_nil, decide_eq_false_iff_not]
  exact fun h => hp h.symm

theorem matchAt_bound {t p : List Char} {i : Nat} (h : matchAt t p i = true)
    (hp : p ≠ []) : i + p.length ≤ t.length := by
  simp only [matchAt, decide_eq_true_eq] at h
  have h2 := congrArg List.length h
  simp only [List.length_take, List.length_drop] at h2
  rcases Nat.le_total i t.length with h3 | h3
  · omega
  · exfalso
    rw [List.drop_of_length_le h3] at h
    simp only [List.take_nil] at h
    exact hp h.symm

theorem matchAt_append_left {u v p : List Char} {i : Nat}
    (h : i + p.length ≤ u.length) : matchAt (u ++ v) p i = matchAt u p i := by
  simp only [matchAt]
  rw [List.drop_append_of_le_length (by omega),
    List.take_append_of_le_length (by simp only [List.length_drop]; omega)]

theorem charAt_append_left {u v : List Char} {i : Nat} (h : i < u.length) :
    charAt (u ++ v) i = charAt u i := by
  simp only [charAt]
  exact List.getD_append u v _ i h

theorem runEnd_ge (t : List Char) (f : Char → Bool) (i : Nat) :
    i ≤ runEnd t f i := by
  simp [runEnd]

theorem runEnd_le_length {t : List Char} {f : Char → Bool} {i : Nat}
    (h : i ≤ t.length) : runEnd t f i ≤ t.length := by
  have := (List.takeWhile_sublist f (l := t.drop i)).length_le
  simp only [runEnd, List.length_drop] at this ⊢
  omega

theorem runEnd_append_left {u v : List Char} {f : Char → Bool} {i : Nat}
    (h1 : i ≤ u.length)
    (h2 : ((u.drop i).takeWhile f).length ≠ (u.drop i).length) :
    runEnd (u ++ v) f i = runEnd u f i := by
  simp only [runEnd]
  rw [List.drop_append_of_le_length h1, List.takeWhile_append, if_neg h2]

theorem slice_append_left {u v : List Char} {a b : Nat} (h : b ≤ u.length) :
    slice (u ++ v) a b = slice u a b := by
  simp only [slice]
  rw [List.take_append_of_le_length h]

theorem stripL_len_le (l : List Char) : (stripL l).length ≤ l.length := by
  simp only [stripL, List.length_reverse]
  have h1 := (List.dropWhile_sublist (l := l) isWS).length_le
  have h2 :=
    (List.dropWhile_sublist (l := (l.dropWhile isWS).reverse) isWS).length_le
  simp only [List.length_reverse] at h2
  omega

theorem splice_len_le (t : List Char) {p z : Nat} (h : p ≤ z) :
    (t.take p ++ t.drop z).length ≤ t.length := by
  simp only [List.length_append, List.length_take, List.length_drop]
  omega

theorem scanA_hit {t : List Char} {b : Bool} {chk : Nat → Option α}
    {pos : Nat} {a : α} (h1 : pos ≤ t.length) (h2 : chk pos = some a) :
    scanA t b chk pos = some a := by
  rw [scanA, show t.length + 1 - pos = (t.length - pos) + 1 from by omega]
  simp [scanAF, Nat.not_lt.2 h1, h2]

theorem scanA_succ {t : List Char} {b : Bool} {chk : Nat → Option α}
    {pos : Nat} (h1 : pos < t.length) (h2 : chk pos = none)
    (h3 : b = true → charAt t pos ≠ '\n') :
    scanA t b chk pos = scanA t b chk (pos + 1) := by
  rw [scanA, scanA, show t.length + 1 - pos = (t.length - pos) + 1 from by omega,
    show t.length + 1 - (pos + 1) = t.length - pos from by omega]
  have hb : ¬(b = true ∧ charAt t pos = '\n') := by
    rintro ⟨hb1, hb2⟩
    exact h3 hb1 hb2
  simp [scanAF, Nat.not_lt.2 (Nat.le_of_lt h1), h2, Nat.ne_of_lt h1, hb]

theorem scanAF_forall {t : List Char} {b : Bool} {chk : Nat → Option α}
    {P : α → Prop} (h : ∀ pos a, chk pos = some a → P a) :
    ∀ fuel pos a, scanAF t b chk fuel pos = some a → P a := by
  intro fuel
  induction fuel with
  | zero =>
    intro pos a hs
    simp [scanAF] at hs
  | succ m ih =>
    intro pos a hs
    simp only [scanAF] at hs
    by_cases hc1 : t.length < pos
    · simp [hc1] at hs
    · simp only [hc1, if_false] at hs
      cases hc : chk pos with
      | some a0 =>
        rw [hc] at hs
        simp only [Option.some.injEq] at hs
        exact hs ▸ h pos a0 hc
      | none =>
        rw [hc] at hs
        by_cases hc2 : pos = t.length
        · simp [hc2] at hs
        · simp only [hc2, if_false] at hs
          by_cases hc3 : b = true ∧ charAt t pos = '\n'
          · simp [hc3] at hs
          · simp only [hc3, if_false] at hs
            exact ih (pos + 1) a hs

theorem scanA_forall {t : List Char} {b : Bool} {chk : Nat → Option α}
    {P : α → Prop} (h : ∀ pos a, chk pos = some a → P a) :
    ∀ pos a, scanA t b chk pos = some a → P a :=
  fun pos a hs => scanAF_forall h _ pos a hs

theorem iterScan_hit {t : List Char} {step : Nat → Option (Option α × Nat)}
    {pos : Nat} {a : α} {e : Nat} (h1 : pos ≤ t.length)
    (h2 : step pos = some (some a, e)) : iterScan t step pos = some a := by
  rw [iterScan, show t.length + 1 - pos = (t.length - pos) + 1 from by omega]
  simp [iterScanF, Nat.not_lt.2 h1, h2]

theorem iterScan_nil {step : Nat → Option (Option α × Nat)}
    (h : step 0 = none) : iterScan ([] : List Char) step 0 = none := by
  simp [iterScan, iterScanF, h]

/-! ## Claim theorems -/

/-- C1.  The Relationship Resolver never fabricates a party: on any text
and non-empty parties, `extract_payment_relationship` returns the two
input strings, in input order or swapped. -/
theorem c1_resolver_never_fabricates (text p1 p2 : String)
    (h1 : p1 ≠ "") (h2 : p2 ≠ "") :
    extractPaymentRelationship text (some p1) (some p2) = (some p1, some p2) ∨
      extractPaymentRelationship text (some p1) (some p2) =
        (some p2, some p1) := by
  have hf1 : falsyS (some p1) = false := by
    simp only [falsyS, decide_eq_false_iff_not]
    exact h1
  have hf2 : falsyS (some p2) = false := by
    simp only [falsyS, decide_eq_false_iff_not]
    exact h2
  cases hr : resolveCore text.data p1.data p2.data <;>
    simp [extractPaymentRelationship, hf1, hf2, hr]

theorem c1_witness :
    extractPaymentRelationship "x" (some "a") (some "b") =
        (some "a", some "b") ∨
      extractPaymentRelationship "x" (some "a") (some "b") =
        (some "b", some "a") :=
  c1_resolver_never_fabricates "x" "a" "b" (by decide) (by decide)

/-- C4.  Identity law on absent parties: if either party is `None` or
empty, `extract_payment_relationship` returns its input unchanged. -/
theorem c4_identity_on_absent (text : String) (p1 p2 : Option String)
    (h : falsyS p1 = true ∨ falsyS p2 = true) :
    extractPaymentRelationship text p1 p2 = (p1, p2) := by
  rcases h with h | h <;> simp [extractPaymentRelationship, h]

theorem c4_witness :
    extractPaymentRelationship "Some contract text" none
        (some "City of Des Moines") = (none, some "City of Des Moines") :=
  c4_identity_on_absent "Some contract text" none (some "City of Des Moines")
    (Or.inl (by decide))

/-- C6.  What the validator actually computes on the claim's inputs:
"Full Legal Name" and every name under three characters are rejected and
"Polk County" is accepted, as claimed — but the bare organisation-type
keyword "City" is *accepted* (`is_valid_entity_name("City") == True`),
because the source compares the unlowered `name.strip()` against the
lower-cased keyword list, contradicting its own comment ("Reject if it's
just a single organization type keyword"); only an already-lower-case
"city" is rejected. -/
theorem c6_validator_behaviour :
    isValidEntityName (chars "City") = true ∧
      isValidEntityName (chars "Full Legal Name") = false ∧
      isValidEntityName (chars "Polk County") = true ∧
      isValidEntityName (chars "ab") = false ∧
      isValidEntityName (chars "city") = false := by
  refine ⟨by decide, by decide, by decide, by decide, by decide⟩

/-- C9.  Empty/missing input short-circuits every stage to its empty
result: the preprocessor and cleaner pass the input through, the
extractor finds `(None, None)`, validation rejects, the amount is `0.0`,
and the resolver returns its parties unchanged on empty text (with no
parties this is `(None, None)`).  All embedded functions are total Lean
functions, the shallow counterpart of "returns normally without raising
an exception". -/
theorem c9_total_degradation :
    preprocessText "" = "" ∧
      extractEntities "" = (none, none) ∧
      cleanEntityName [] = [] ∧
      isValidEntityName [] = false ∧
      extractAmount "" = Amt.zero ∧
      (∀ p1 p2 : Option String,
        extractPaymentRelationship "" p1 p2 = (p1, p2)) := by
  refine ⟨by decide, by decide, by decide, by decide, by decide, ?_⟩
  intro p1 p2
  match p1, p2 with
  | none, _ => simp [extractPaymentRelationship, falsyS]
  | some a, none => simp [extractPaymentRelationship, falsyS]
  | some a, some b =>
    by_cases ha : a = ""
    · simp [extractPaymentRelationship, falsyS, ha]
    · by_cases hb : b = ""
      · simp [extractPaymentRelationship, falsyS, hb]
      · have hla : lowerL a.data ≠ [] := by
          simp only [lowerL, ne_eq, List.map_eq_nil_iff]
          intro h
          exact ha (congrArg String.mk h)
        have hlb : lowerL b.data ≠ [] := by
          simp only [lowerL, ne_eq, List.map_eq_nil_iff]
          intro h
          exact hb (congrArg String.mk h)
        have hs1 : ∀ x y : List Char,
            stage1Loop [] x y genericPatterns = none := by
          intro x y
          simp only [genericPatterns, stage1Loop]
          rw [show searchGenericPay [] (chars "city") (chars "county") = false
              from by decide,
            show searchGenericPay [] (chars "county") (chars "city") = false
              from by decide,
            show searchGenericPay [] (chars "city") (chars "sheriff") = false
              from by decide,
            show searchGenericPay [] (chars "sheriff") (chars "city") = false
              from by decide]
          simp
        have hstage1 : ∀ o1 o2, stage1 [] o1 o2 = none := by
          intro o1 o2
          match o1, o2 with
          | none, _ => rfl
          | some x, none => rfl
          | some x, some y =>
            simp only [stage1]
            split
            · exact hs1 x y
            · rfl
        have hnamed : ∀ x y : List Char, x ≠ [] →
            searchNamedPay [] x y = false := by
          intro x y hx
          simp [searchNamedPay, show List.range 1 = [0] from rfl,
            matchAt_nil 0 hx]
        have hcount : ∀ x : List Char, x ≠ [] → countNearPay [] x 0 = 0 := by
          intro x hx
          simp [countNearPay, countNearPayF, matchAt_nil 0 hx]
        have h2g : stage2generic [] (lowerL a.data) (lowerL b.data) = none := by
          apply iterScan_nil
          simp [stage2gStep, afterTok,
            show matchAt [] (chars "the") 0 = false from by decide,
            show wordEnd [] 0 = 0 from by decide]
        have h3 : stage3 [] (lowerL a.data) (lowerL b.data) = none := by
          apply iterScan_nil
          simp [stage3step, pmCheck,
            show matchAt [] (chars "payment") 0 = false from by decide]
        have h4 : stage4 [] (lowerL a.data) (lowerL b.data) = none := by
          apply iterScan_nil
          simp [stage4step, show wordEnd [] 0 = 0 from by decide]
        have hf1 : falsyS (some a) = false := by
          simp only [falsyS, decide_eq_false_iff_not]
          exact ha
        have hf2 : falsyS (some b) = false := by
          simp only [falsyS, decide_eq_false_iff_not]
          exact hb
        have htl : lowerL (String.data "") = [] := by decide
        simp only [extractPaymentRelationship, hf1, hf2, Bool.or_self,
          Bool.false_eq_true, if_false, resolveCore, htl, hstage1,
          stage2named, hnamed _ _ hla, hnamed _ _ hlb, Bool.false_eq_true,
          if_false, resolveLater, h2g, h3, h4, stage5, hcount _ hla,
          hcount _ hlb, Nat.lt_irrefl, gt_iff_lt, if_false]

/-- C2.  Typed-cascade precedence for the city/county pair: whenever the
two parties' entity types are city and county (in either input order)
and the generic "city … shall/will/agrees to pay … county" phrasing (the
first rule-1 pattern) matches the lower-cased text, the resolver orders
the pair city-pays-county regardless of which party was listed first. -/
theorem c2_typed_cascade_precedence (text p1 p2 : String)
    (h1 : getEntityType p1.data = some (chars "county"))
    (h2 : getEntityType p2.data = some (chars "city"))
    (h3 : searchGenericPay (lowerL text.data) (chars "city")
        (chars "county") = true) :
    extractPaymentRelationship text (some p1) (some p2) =
        (some p2, some p1) ∧
      extractPaymentRelationship text (some p2) (some p1) =
        (some p2, some p1) := by
  have hne1 : p1 ≠ "" := by
    intro h
    rw [h] at h1
    exact absurd h1 (by decide)
  have hne2 : p2 ≠ "" := by
    intro h
    rw [h] at h2
    exact absurd h2 (by decide)
  have hf1 : falsyS (some p1) = false := by
    simp only [falsyS, decide_eq_false_iff_not]
    exact hne1
  have hf2 : falsyS (some p2) = false := by
    simp only [falsyS, decide_eq_false_iff_not]
    exact hne2
  have hA : ¬(chars "county" = chars "city" ∧ chars "city" = chars "county") :=
    by decide
  have hB : chars "city" = chars "city" ∧ chars "county" = chars "county" :=
    by decide
  have hC : chars "city" = chars "city" ∧ chars "county" = chars "county" ∧
      True := ⟨hB.1, hB.2, trivial⟩
  constructor
  · have hstage :
        stage1 (lowerL text.data) (getEntityType p1.data)
          (getEntityType p2.data) = some PayDir.rev := by
      rw [h1, h2]
      simp only [stage1, ne_eq, show ¬(chars "county" = chars "city") from
        by decide, not_false_eq_true, if_true, stage1Loop, genericPatterns,
        h3, if_true, if_neg hA, if_pos hB]
      simp
    simp [extractPaymentRelationship, hf1, hf2, resolveCore, hstage]
  · have hstage :
        stage1 (lowerL text.data) (getEntityType p2.data)
          (getEntityType p1.data) = some PayDir.fwd := by
      rw [h1, h2]
      simp only [stage1, ne_eq, show ¬(chars "city" = chars "county") from
        by decide, not_false_eq_true, if_true, stage1Loop, genericPatterns,
        h3, if_true, if_pos hB]
      simp
    simp [extractPaymentRelationship, hf1, hf2, resolveCore, hstage]

theorem c2_witness :
    searchGenericPay
        (lowerL
          (chars "The City shall pay to the County an annual sum for services."))
        (chars "city") (chars "county") = true ∧
      extractPaymentRelationship
          "The City shall pay to the County an annual sum for services."
          (some "Chickasaw County") (some "City of Lawler") =
        (some "City of Lawler", some "Chickasaw County") ∧
      extractPaymentRelationship
          "The City shall pay to the County an annual sum for services."
          (some "City of Lawler") (some "Chickasaw County") =
        (some "City of Lawler", some "Chickasaw County") := by
  have h3 : searchGenericPay
      (lowerL
        (chars "The City shall pay to the County an annual sum for services."))
      (chars "city") (chars "county") = true := by decide
  have h := c2_typed_cascade_precedence
    "The City shall pay to the County an annual sum for services."
    "Chickasaw County" "City of Lawler" (by decide) (by decide) h3
  exact ⟨h3, h.1, h.2⟩

theorem verbAltSeg_bound {t : List Char} {j a : Nat}
    (h : verbAltSeg t j a = true) : j + 4 ≤ t.length := by
  simp only [verbAltSeg, Bool.or_eq_true, Bool.and_eq_true] at h
  rcases h with ((⟨hm, _⟩ | ⟨hm, _⟩) | ⟨hm, _⟩) | ⟨hm, _⟩
  · have := matchAt_bound hm (by decide)
    rw [show (chars "shall").length = 5 from rfl] at this
    omega
  · have := matchAt_bound hm (by decide)
    rw [show (chars "will").length = 4 from rfl] at this
    omega
  · have := matchAt_bound hm (by decide)
    rw [show (chars "agrees").length = 6 from rfl] at this
    omega
  · have := matchAt_bound hm (by decide)
    rw [show (chars "agree").length = 5 from rfl] at this
    omega

theorem verbAltSeg_verb {t : List Char} {j a : Nat}
    (h : verbAltSeg t j a = true) :
    (matchAt t (chars "shall") j || matchAt t (chars "will") j ||
      matchAt t (chars "agrees") j || matchAt t (chars "agree") j) = true := by
  simp only [verbAltSeg, Bool.or_eq_true, Bool.and_eq_true] at h
  rcases h with ((⟨hm, _⟩ | ⟨hm, _⟩) | ⟨hm, _⟩) | ⟨hm, _⟩ <;>
    simp [hm]

theorem verbPayToSeg_verb {t : List Char} {j k : Nat}
    (h : verbPayToSeg t j k = true) :
    (matchAt t (chars "shall") j || matchAt t (chars "will") j ||
      matchAt t (chars "agrees") j || matchAt t (chars "agree") j) = true := by
  simp only [verbPayToSeg, List.any_eq_true, List.mem_range,
    Bool.and_eq_true] at h
  obtain ⟨e, he, hvpe, _⟩ := h
  simp only [verbPayEnd, Bool.and_eq_true, List.any_eq_true, List.mem_range,
    decide_eq_true_eq] at hvpe
  obtain ⟨⟨_, _⟩, a, ha, hseg, _⟩ := hvpe
  exact verbAltSeg_verb hseg

theorem verbPayToSeg_bound {t : List Char} {j k : Nat}
    (h : verbPayToSeg t j k = true) : j + 4 ≤ t.length := by
  simp only [verbPayToSeg, List.any_eq_true, List.mem_range,
    Bool.and_eq_true] at h
  obtain ⟨e, he, hvpe, _⟩ := h
  simp only [verbPayEnd, Bool.and_eq_true, List.any_eq_true, List.mem_range,
    decide_eq_true_eq] at hvpe
  obtain ⟨⟨_, _⟩, a, ha, hseg, _⟩ := hvpe
  exact verbAltSeg_bound hseg

/-- If every co-occurrence of `p`, a pay-verb phrase, and `q` (in that
order) exceeds the 100-character window on one side, the rule-2a search
for `p … pay … q` fails. -/
theorem searchNamedPay_eq_false {t p q : List Char} (hq : q ≠ [])
    (h : ∀ i, i ≤ t.length → ∀ j, j ≤ t.length → ∀ k, k ≤ t.length →
      ∀ m, m ≤ t.length →
      matchAt t p i = true → verbPayToSeg t j k = true →
      matchAt t q m = true → i + p.length ≤ j → k ≤ m →
      100 < j - (i + p.length) ∨ 100 < m - k) :
    searchNamedPay t p q = false := by
  by_contra hcon
  rw [Bool.not_eq_false] at hcon
  simp only [searchNamedPay, List.any_eq_true, List.mem_range,
    Bool.and_eq_true] at hcon
  obtain ⟨i, hi, hmi, g1, hg1, k, hk, hseg, g2, hg2, hmq⟩ := hcon
  have hjb : i + p.length + g1 + 4 ≤ t.length := verbPayToSeg_bound hseg
  have hmb : k + g2 + q.length ≤ t.length := matchAt_bound hmq hq
  have hql : 1 ≤ q.length := by
    cases q with
    | nil => exact absurd rfl hq
    | cons c cs => simp
  have := h i (by omega) (i + p.length + g1) (by omega) k (by omega)
    (k + g2) (by omega) hmi hseg hmq (by omega) (by omega)
  omega

/-- C3.  The bounded matching window of resolver rule 2a: when every
co-occurrence of the two party names around a pay-verb phrase exceeds
the 100-character window on one side (in both name orders), rule 2a does
not fire, and resolution falls through: the result is decided by rule 1
or by the later rules. -/
theorem c3_bounded_window (text p1 p2 : String) (h1 : p1 ≠ "") (h2 : p2 ≠ "")
    (hf : ∀ i, i ≤ (lowerL text.data).length →
      ∀ j, j ≤ (lowerL text.data).length →
      ∀ k, k ≤ (lowerL text.data).length →
      ∀ m, m ≤ (lowerL text.data).length →
      matchAt (lowerL text.data) (lowerL p1.data) i = true →
      verbPayToSeg (lowerL text.data) j k = true →
      matchAt (lowerL text.data) (lowerL p2.data) m = true →
      i + (lowerL p1.data).length ≤ j → k ≤ m →
      100 < j - (i + (lowerL p1.data).length) ∨ 100 < m - k)
    (hb : ∀ i, i ≤ (lowerL text.data).length →
      ∀ j, j ≤ (lowerL text.data).length →
      ∀ k, k ≤ (lowerL text.data).length →
      ∀ m, m ≤ (lowerL text.data).length →
      matchAt (lowerL text.data) (lowerL p2.data) i = true →
      verbPayToSeg (lowerL text.data) j k = true →
      matchAt (lowerL text.data) (lowerL p1.data) m = true →
      i + (lowerL p2.data).length ≤ j → k ≤ m →
      100 < j - (i + (lowerL p2.data).length) ∨ 100 < m - k) :
    stage2named (lowerL text.data) (lowerL p1.data) (lowerL p2.data) = none ∧
      extractPaymentRelationship text (some p1) (some p2) =
        (match
          stage1 (lowerL text.data) (getEntityType p1.data)
            (getEntityType p2.data) with
        | some d => dirPair p1 p2 d
        | none =>
          dirPair p1 p2
            (resolveLater (lowerL text.data) (lowerL p1.data)
              (lowerL p2.data))) := by
  have hl1 : lowerL p1.data ≠ [] := by
    simp only [lowerL, ne_eq, List.map_eq_nil_iff]
    intro h
    exact h1 (congrArg String.mk h)
  have hl2 : lowerL p2.data ≠ [] := by
    simp only [lowerL, ne_eq, List.map_eq_nil_iff]
    intro h
    exact h2 (congrArg String.mk h)
  have hs1 : searchNamedPay (lowerL text.data) (lowerL p1.data)
      (lowerL p2.data) = false := searchNamedPay_eq_false hl2 hf
  have hs2 : searchNamedPay (lowerL text.data) (lowerL p2.data)
      (lowerL p1.data) = false := searchNamedPay_eq_false hl1 hb
  have hnamed : stage2named (lowerL text.data) (lowerL p1.data)
      (lowerL p2.data) = none := by
    simp [stage2named, hs1, hs2]
  refine ⟨hnamed, ?_⟩
  have hf1 : falsyS (some p1) = false := by
    simp only [falsyS, decide_eq_false_iff_not]
    exact h1
  have hf2 : falsyS (some p2) = false := by
    simp only [falsyS, decide_eq_false_iff_not]
    exact h2
  cases hs : stage1 (lowerL text.data) (getEntityType p1.data)
      (getEntityType p2.data) with
  | some d =>
    cases d <;>
      simp [extractPaymentRelationship, hf1, hf2, resolveCore, hs, dirPair]
  | none =>
    cases hr : resolveLater (lowerL text.data) (lowerL p1.data)
        (lowerL p2.data) <;>
      simp [extractPaymentRelationship, hf1, hf2, resolveCore, hs, hnamed,
        hr, dirPair]

theorem c3_witness :
    stage2named (lowerL c3text.data) (lowerL (String.data "aa"))
        (lowerL (String.data "bb")) = none ∧
      extractPaymentRelationship c3text (some "aa") (some "bb") =
        (match
          stage1 (lowerL c3text.data) (getEntityType (String.data "aa"))
            (getEntityType (String.data "bb")) with
        | some d => dirPair "aa" "bb" d
        | none =>
          dirPair "aa" "bb"
            (resolveLater (lowerL c3text.data) (lowerL (String.data "aa"))
              (lowerL (String.data "bb")))) := by
  have haa : ∀ i, i ≤ (lowerL c3text.data).length →
      matchAt (lowerL c3text.data) (lowerL (String.data "aa")) i = true →
      i = 0 := by decide
  have hbb : ∀ m, m ≤ (lowerL c3text.data).length →
      matchAt (lowerL c3text.data) (lowerL (String.data "bb")) m = true →
      m = 113 := by decide
  have hverb : ∀ j, j ≤ (lowerL c3text.data).length →
      (matchAt (lowerL c3text.data) (chars "shall") j ||
        matchAt (lowerL c3text.data) (chars "will") j ||
        matchAt (lowerL c3text.data) (chars "agrees") j ||
        matchAt (lowerL c3text.data) (chars "agree") j) = true →
      j = 103 := by decide
  refine c3_bounded_window c3text "aa" "bb" (by decide) (by decide) ?_ ?_
  · intro i hi j hj k hk m hm hmi hseg hmq hij hkm
    have hi0 := haa i hi hmi
    have hj103 := hverb j hj (verbPayToSeg_verb hseg)
    have hlen : (lowerL (String.data "aa")).length = 2 := rfl
    omega
  · intro i hi j hj k hk m hm hmi hseg hmq hij hkm
    have hi113 := hbb i hi hmi
    have hj103 := hverb j hj (verbPayToSeg_verb hseg)
    have hlen : (lowerL (String.data "bb")).length = 2 := rfl
    omega

theorem matchAt_append_shift (u w p : List Char) (i : Nat) :
    matchAt (u ++ w) p (u.length + i) = matchAt w p i := by
  simp only [matchAt]
  rw [← List.drop_drop, List.drop_left]

theorem charAt_append_shift (u w : List Char) (i : Nat) :
    charAt (u ++ w) (u.length + i) = charAt w i := by
  simp only [charAt]
  rw [List.getD_append_right u w _ _ (by omega)]
  congr 1
  omega

theorem runEnd_append_shift (u w : List Char) (f : Char → Bool) (i : Nat) :
    runEnd (u ++ w) f (u.length + i) = u.length + runEnd w f i := by
  simp only [runEnd]
  rw [← List.drop_drop, List.drop_left]
  omega

theorem slice_append_shift (u w : List Char) (a b : Nat) :
    slice (u ++ w) (u.length + a) (u.length + b) = slice w a b := by
  simp only [slice]
  rw [List.take_append_eq_append_take, List.take_of_length_le (by omega),
    show u.length + b - u.length = b from by omega,
    ← List.drop_drop, List.drop_left]

theorem iterScan_succ {t : List Char} {step : Nat → Option (Option α × Nat)}
    {pos : Nat} (h1 : pos ≤ t.length) (h2 : step pos = none) :
    iterScan t step pos = iterScan t step (pos + 1) := by
  rw [iterScan, iterScan,
    show t.length + 1 - pos = (t.length - pos) + 1 from by omega]
  simp only [iterScanF, Nat.not_lt.2 h1, if_false, h2]
  congr 1
  omega

theorem iterScan_skip {t : List Char} {step : Nat → Option (Option α × Nat)}
    {pos m : Nat} (hm : m ≤ t.length) (hpm : pos ≤ m)
    (h : ∀ i, pos ≤ i → i < m → step i = none) :
    iterScan t step pos = iterScan t step m := by
  rcases Nat.le.dest hpm with ⟨k, hk⟩
  induction k generalizing pos with
  | zero =>
    have hpe : pos = m := by omega
    rw [hpe]
  | succ k ih =>
    have hlt : pos < m := by omega
    rw [iterScan_succ (by omega) (h pos le_rfl hlt)]
    exact ih (by omega) (fun i h1 h2 => h i (by omega) h2) (by omega)

/-- C5.  The "Payment made to Y" inversion: for parties
`("City of Ames", "Story County")` and any text of the form
`pre ++ "Payment shall be made to City of Ames" ++ post` in which no
occurrence of "payment" starts inside `pre` and no earlier-firing payment
pattern exists (rules 1, 2a and 2b all fail), the resolver returns
`("Story County", "City of Ames")`: the party named as the payment
destination becomes the payee and the other party the payer. -/
theorem c5_payment_made_to_inversion (pre post : List Char)
    (hpre : ∀ i, i < (lowerL pre).length →
      matchAt (lowerL (pre ++ (c5phrase ++ post))) (chars "payment") i =
        false)
    (ha : stage1 (lowerL (pre ++ (c5phrase ++ post)))
      (getEntityType (String.data "City of Ames"))
      (getEntityType (String.data "Story County")) = none)
    (hb : stage2named (lowerL (pre ++ (c5phrase ++ post)))
      (lowerL (String.data "City of Ames"))
      (lowerL (String.data "Story County")) = none)
    (hc : stage2generic (lowerL (pre ++ (c5phrase ++ post)))
      (lowerL (String.data "City of Ames"))
      (lowerL (String.data "Story County")) = none) :
    extractPaymentRelationship (String.mk (pre ++ (c5phrase ++ post)))
        (some "City of Ames") (some "Story County") =
      (some "Story County", some "City of Ames") := by
  have hsplit : lowerL (pre ++ (c5phrase ++ post))
      = lowerL pre ++ (c5phraseL ++ lowerL post) := by
    simp only [lowerL, List.map_append]
    rw [show List.map lowerChar c5phrase = c5phraseL from by decide]
  rw [hsplit] at ha hb hc
  simp only [hsplit] at hpre
  set A := lowerL pre
  set B := lowerL post
  have h37 : c5phraseL.length = 37 := by decide
  have htlen : (A ++ (c5phraseL ++ B)).length = A.length + (37 + B.length) := by
    simp only [List.length_append, h37]
  have hmW : ∀ (p : List Char) (i : Nat), i + p.length ≤ 37 →
      matchAt (c5phraseL ++ B) p i = matchAt c5phraseL p i :=
    fun p i h => matchAt_append_left (by omega)
  have hcW : ∀ i : Nat, i < 37 →
      charAt (c5phraseL ++ B) i = charAt c5phraseL i :=
    fun i h => charAt_append_left (by omega)
  have w1 : matchAt (c5phraseL ++ B) (chars "payment") 0 = true := by
    rw [hmW (chars "payment") 0 (by decide)]; decide
  have w2 : matchAt (c5phraseL ++ B) (chars "shall be made") 7 = false := by
    rw [hmW (chars "shall be made") 7 (by decide)]; decide
  have w3 : matchAt (c5phraseL ++ B) (chars "made") 7 = false := by
    rw [hmW (chars "made") 7 (by decide)]; decide
  have w4 : charAt (c5phraseL ++ B) 7 = ' ' := by
    rw [hcW 7 (by decide)]; decide
  have w5 : matchAt (c5phraseL ++ B) (chars "shall be made") 8 = true := by
    rw [hmW (chars "shall be made") 8 (by decide)]; decide
  have w6 : matchAt (c5phraseL ++ B) (chars "to") 21 = false := by
    rw [hmW (chars "to") 21 (by decide)]; decide
  have w7 : charAt (c5phraseL ++ B) 21 = ' ' := by
    rw [hcW 21 (by decide)]; decide
  have w8 : matchAt (c5phraseL ++ B) (chars "to") 22 = true := by
    rw [hmW (chars "to") 22 (by decide)]; decide
  have w9 : matchAt (c5phraseL ++ B) (chars "the") 24 = false := by
    rw [hmW (chars "the") 24 (by decide)]; decide
  have w10 : charAt (c5phraseL ++ B) 24 = ' ' := by
    rw [hcW 24 (by decide)]; decide
  have w11 : matchAt (c5phraseL ++ B) (chars "the") 25 = false := by
    rw [hmW (chars "the") 25 (by decide)]; decide
  have w12 : charAt (c5phraseL ++ B) 25 = 'c' := by
    rw [hcW 25 (by decide)]; decide
  have w13 : runEnd (c5phraseL ++ B) isWordChar 25 = 29 := by
    rw [runEnd_append_left (v := B) (by decide) (by decide)]; decide
  have w14 : slice (c5phraseL ++ B) 25 29 = chars "city" := by
    rw [slice_append_left (v := B) (by decide)]; decide
  have hm1 : matchAt (A ++ (c5phraseL ++ B)) (chars "payment") A.length =
      true := by
    have h := matchAt_append_shift A (c5phraseL ++ B) (chars "payment") 0
    rw [Nat.add_zero] at h
    rw [h]
    exact w1
  have hch7 : charAt (A ++ (c5phraseL ++ B)) (A.length + 7) = ' ' := by
    rw [charAt_append_shift A (c5phraseL ++ B) 7]; exact w4
  have hch21 : charAt (A ++ (c5phraseL ++ B)) (A.length + 21) = ' ' := by
    rw [charAt_append_shift A (c5phraseL ++ B) 21]; exact w7
  have hch24 : charAt (A ++ (c5phraseL ++ B)) (A.length + 24) = ' ' := by
    rw [charAt_append_shift A (c5phraseL ++ B) 24]; exact w10
  have hscan1 : scanA (A ++ (c5phraseL ++ B)) true
      (fun p =>
        if matchAt (A ++ (c5phraseL ++ B)) (chars "shall be made") p then
          some (p + 13)
        else if matchAt (A ++ (c5phraseL ++ B)) (chars "made") p then
          some (p + 4)
        else none)
      (A.length + 7) = some (A.length + 21) := by
    have hc7 : (fun p =>
        if matchAt (A ++ (c5phraseL ++ B)) (chars "shall be made") p then
          some (p + 13)
        else if matchAt (A ++ (c5phraseL ++ B)) (chars "made") p then
          some (p + 4)
        else none) (A.length + 7) = (none : Option Nat) := by
      simp only []
      rw [matchAt_append_shift A _ (chars "shall be made") 7, w2,
        matchAt_append_shift A _ (chars "made") 7, w3]
      simp
    have hlt7 : A.length + 7 < (A ++ (c5phraseL ++ B)).length := by omega
    rw [scanA_succ hlt7 hc7 (fun _ => by rw [hch7]; decide)]
    rw [show A.length + 7 + 1 = A.length + 8 from by omega]
    have hc8 : (fun p =>
        if matchAt (A ++ (c5phraseL ++ B)) (chars "shall be made") p then
          some (p + 13)
        else if matchAt (A ++ (c5phraseL ++ B)) (chars "made") p then
          some (p + 4)
        else none) (A.length + 8) = some (A.length + 21) := by
      simp only []
      rw [matchAt_append_shift A _ (chars "shall be made") 8, w5]
      simp only [eq_self_iff_true, if_true, Option.some.injEq]
    exact scanA_hit (by omega) hc8
  have hscan2 : scanA (A ++ (c5phraseL ++ B)) true
      (fun p =>
        if matchAt (A ++ (c5phraseL ++ B)) (chars "to") p then some (p + 2)
        else none)
      (A.length + 21) = some (A.length + 24) := by
    have hc21 : (fun p =>
        if matchAt (A ++ (c5phraseL ++ B)) (chars "to") p then some (p + 2)
        else none) (A.length + 21) = (none : Option Nat) := by
      simp only []
      rw [matchAt_append_shift A _ (chars "to") 21, w6]
      simp
    have hlt21 : A.length + 21 < (A ++ (c5phraseL ++ B)).length := by omega
    rw [scanA_succ hlt21 hc21 (fun _ => by rw [hch21]; decide)]
    rw [show A.length + 21 + 1 = A.length + 22 from by omega]
    have hc22 : (fun p =>
        if matchAt (A ++ (c5phraseL ++ B)) (chars "to") p then some (p + 2)
        else none) (A.length + 22) = some (A.length + 24) := by
      simp only []
      rw [matchAt_append_shift A _ (chars "to") 22, w8]
      simp only [eq_self_iff_true, if_true, Option.some.injEq]
    exact scanA_hit (by omega) hc22
  have hcap24 : capTheWord (A ++ (c5phraseL ++ B)) (A.length + 24) = none := by
    simp only [capTheWord]
    rw [matchAt_append_shift A _ (chars "the") 24, w9,
      charAt_append_shift A _ 24, w10]
    rw [if_neg (fun hcon => Bool.false_ne_true hcon.1)]
    rw [if_neg (by decide)]
  have hcap25 : capTheWord (A ++ (c5phraseL ++ B)) (A.length + 25) =
      some (A.length + 25, A.length + 29) := by
    simp only [capTheWord]
    rw [matchAt_append_shift A _ (chars "the") 25, w11,
      charAt_append_shift A _ 25, w12]
    rw [if_neg (fun hcon => Bool.false_ne_true hcon.1)]
    rw [if_pos (by decide)]
    have hwe : wordEnd (A ++ (c5phraseL ++ B)) (A.length + 25) =
        A.length + 29 := by
      simp only [wordEnd]
      rw [runEnd_append_shift A (c5phraseL ++ B) isWordChar 25, w13]
    rw [hwe]
  have hscape : scanA (A ++ (c5phraseL ++ B)) true
      (capTheWord (A ++ (c5phraseL ++ B))) (A.length + 24) =
      some (A.length + 25, A.length + 29) := by
    have hlt24 : A.length + 24 < (A ++ (c5phraseL ++ B)).length := by omega
    rw [scanA_succ hlt24 hcap24 (fun _ => by rw [hch24]; decide)]
    rw [show A.length + 24 + 1 = A.length + 25 from by omega]
    exact scanA_hit (by omega) hcap25
  have hpm : pmCheck (A ++ (c5phraseL ++ B)) A.length =
      some (A.length + 25, A.length + 29) := by
    simp only [pmCheck, hm1, eq_self_iff_true, if_true, hscan1, hscan2,
      hscape]
  have hpr : partyRel (lowerL (String.data "City of Ames")) (chars "city") =
      true := by decide
  have hstep : stage3step (A ++ (c5phraseL ++ B))
      (lowerL (String.data "City of Ames"))
      (lowerL (String.data "Story County")) A.length =
      some (some PayDir.rev, A.length + 29) := by
    simp only [stage3step, hpm]
    have hsl : slice (A ++ (c5phraseL ++ B)) (A.length + 25) (A.length + 29) =
        chars "city" := by
      rw [slice_append_shift A (c5phraseL ++ B) 25 29, w14]
    rw [hsl, if_pos hpr]
  have hstepnone : ∀ i, 0 ≤ i → i < A.length →
      stage3step (A ++ (c5phraseL ++ B))
        (lowerL (String.data "City of Ames"))
        (lowerL (String.data "Story County")) i = none := by
    intro i _ hi
    have hp : matchAt (A ++ (c5phraseL ++ B)) (chars "payment") i = false :=
      hpre i hi
    simp only [stage3step, pmCheck, hp, Bool.false_eq_true, if_false]
  have h3 : stage3 (A ++ (c5phraseL ++ B))
      (lowerL (String.data "City of Ames"))
      (lowerL (String.data "Story County")) = some PayDir.rev := by
    simp only [stage3]
    have hsk := iterScan_skip
      (show A.length ≤ (A ++ (c5phraseL ++ B)).length from by omega)
      (Nat.zero_le A.length) hstepnone
    rw [hsk]
    exact iterScan_hit (by omega) hstep
  have hcore : resolveCore (pre ++ (c5phrase ++ post))
      (String.data "City of Ames") (String.data "Story County") =
      PayDir.rev := by
    simp only [resolveCore]
    rw [hsplit]
    simp only [ha, hb, resolveLater, hc, h3]
  have hfa : falsyS (some "City of Ames") = false := rfl
  have hfb : falsyS (some "Story County") = false := rfl
  simp only [extractPaymentRelationship, hfa, hfb, Bool.or_self,
    Bool.false_eq_true, if_false]
  rw [hcore]

theorem c5_witness :
    extractPaymentRelationship
        (String.mk (([] : List Char) ++ (c5phrase ++ ([] : List Char))))
        (some "City of Ames") (some "Story County") =
      (some "Story County", some "City of Ames") :=
  c5_payment_made_to_inversion [] [] (by decide) (by decide) (by decide)
    (by decide)

theorem amtLe_refl (a : Amt) : Amt.le a a = true := by
  simp [Amt.le]

theorem amtLe_total (a b : Amt) : Amt.le a b = true ∨ Amt.le b a = true := by
  simp only [Amt.le, decide_eq_true_eq]
  exact le_total _ _

theorem amtLe_trans {a b c : Amt} (h1 : Amt.le a b = true)
    (h2 : Amt.le b c = true) : Amt.le a c = true := by
  simp only [Amt.le, decide_eq_true_eq] at h1 h2 ⊢
  have hb : (0 : Int) < (b.den : Int) := by exact_mod_cast b.pos
  have h3 : a.num * (b.den : Int) * (c.den : Int) ≤
      b.num * (a.den : Int) * (c.den : Int) :=
    mul_le_mul_of_nonneg_right h1 (by positivity)
  have h4 : b.num * (c.den : Int) * (a.den : Int) ≤
      c.num * (b.den : Int) * (a.den : Int) :=
    mul_le_mul_of_nonneg_right h2 (by positivity)
  have h5 : a.num * (c.den : Int) * (b.den : Int) ≤
      c.num * (a.den : Int) * (b.den : Int) := by
    calc a.num * (c.den : Int) * (b.den : Int)
        = a.num * (b.den : Int) * (c.den : Int) := by ring
      _ ≤ b.num * (a.den : Int) * (c.den : Int) := h3
      _ = b.num * (c.den : Int) * (a.den : Int) := by ring
      _ ≤ c.num * (b.den : Int) * (a.den : Int) := h4
      _ = c.num * (a.den : Int) * (b.den : Int) := by ring
  exact le_of_mul_le_mul_right h5 hb

theorem amtGe_refl (x : Amt × ℤ) : amtGe x x = true := by
  simp [amtGe, amtLe_refl]

theorem amtGe_total (x y : Amt × ℤ) : amtGe x y = true ∨ amtGe y x = true := by
  simp only [amtGe, Bool.or_eq_true, Bool.and_eq_true, decide_eq_true_eq]
  rcases lt_trichotomy x.2 y.2 with h | h | h
  · right; left; exact h
  · rcases amtLe_total x.1 y.1 with hle | hle
    · right; right; exact ⟨h, hle⟩
    · left; right; exact ⟨h.symm, hle⟩
  · left; left; exact h

theorem amtGe_trans {x y z : Amt × ℤ} (h1 : amtGe x y = true)
    (h2 : amtGe y z = true) : amtGe x z = true := by
  simp only [amtGe, Bool.or_eq_true, Bool.and_eq_true, decide_eq_true_eq]
    at h1 h2 ⊢
  rcases h1 with h1 | ⟨h1e, h1l⟩ <;> rcases h2 with h2 | ⟨h2e, h2l⟩
  · left; omega
  · left; omega
  · left; omega
  · right; exact ⟨by omega, amtLe_trans h2l h1l⟩

theorem insertDesc_mem {x y : Amt × ℤ} {l : List (Amt × ℤ)} :
    y ∈ insertDesc x l ↔ y = x ∨ y ∈ l := by
  induction l with
  | nil => simp [insertDesc]
  | cons z zs ih =>
    simp only [insertDesc]
    by_cases h : amtGe z x = true
    · rw [if_pos h]
      simp only [List.mem_cons, ih]
      tauto
    · rw [if_neg h]
      simp only [List.mem_cons]

theorem sortDesc_mem {y : Amt × ℤ} {l : List (Amt × ℤ)} :
    y ∈ sortDesc l ↔ y ∈ l := by
  induction l with
  | nil => simp [sortDesc]
  | cons z zs ih => simp [sortDesc, insertDesc_mem, ih]

theorem insertDesc_pairwise {x : Amt × ℤ} {l : List (Amt × ℤ)}
    (h : List.Pairwise (fun a b => amtGe a b = true) l) :
    List.Pairwise (fun a b => amtGe a b = true) (insertDesc x l) := by
  induction l with
  | nil => simp [insertDesc]
  | cons y ys ih =>
    simp only [insertDesc]
    rcases List.pairwise_cons.1 h with ⟨hy, hys⟩
    by_cases hge : amtGe y x = true
    · rw [if_pos hge]
      refine List.pairwise_cons.2 ⟨?_, ih hys⟩
      intro z hz
      rcases insertDesc_mem.1 hz with rfl | hz2
      · exact hge
      · exact hy z hz2
    · rw [if_neg hge]
      have hxy : amtGe x y = true := (amtGe_total x y).resolve_right hge
      refine List.pairwise_cons.2 ⟨?_, h⟩
      intro z hz
      rcases List.mem_cons.1 hz with rfl | hz2
      · exact hxy
      · exact amtGe_trans hxy (hy z hz2)

theorem sortDesc_pairwise (l : List (Amt × ℤ)) :
    List.Pairwise (fun a b => amtGe a b = true) (sortDesc l) := by
  induction l with
  | nil => simp [sortDesc]
  | cons z zs ih => exact insertDesc_pairwise ih

/-- C7.  The amount-selection rule: `extract_amount` returns `0` when no
candidate was collected; otherwise it returns a collected candidate's
value that maximises the (priority, value) tuple — every other candidate
has a strictly smaller priority, or an equal priority and a value no
larger; and a candidate whose numeric text fails to parse after
comma-stripping contributes `0` for that candidate only (the cleaner is
total and returns `0` instead of raising). -/
theorem c7_amount_selection (text : String) :
    (collectAmounts text.data = [] → extractAmount text = Amt.zero) ∧
    (collectAmounts text.data ≠ [] →
      ∃ p : ℤ, (extractAmount text, p) ∈ collectAmounts text.data ∧
        ∀ x ∈ collectAmounts text.data,
          x.2 < p ∨ (x.2 = p ∧ Amt.le x.1 (extractAmount text) = true)) ∧
    (∀ s : List Char,
      parseDecimal (stripL (s.filter fun c => c ≠ ',')) = none →
      cleanAmount s = Amt.zero) := by
  refine ⟨?_, ?_, ?_⟩
  · intro h
    simp [extractAmount, extractAmountCore, h, sortDesc]
  · intro hne
    cases hs : sortDesc (collectAmounts text.data) with
    | nil =>
      exfalso
      obtain ⟨y, hy⟩ := List.exists_mem_of_ne_nil _ hne
      have := sortDesc_mem.2 hy
      rw [hs] at this
      exact absurd this (List.not_mem_nil y)
    | cons hd rest =>
      obtain ⟨v, p⟩ := hd
      have hval : extractAmount text = v := by
        simp [extractAmount, extractAmountCore, hs]
      rw [hval]
      refine ⟨p, ?_, ?_⟩
      · exact sortDesc_mem.1 (hs ▸ List.mem_cons_self _ _)
      · intro x hx
        have hx2 : x ∈ (v, p) :: rest := hs ▸ sortDesc_mem.2 hx
        rcases List.mem_cons.1 hx2 with rfl | hxr
        · right; exact ⟨rfl, amtLe_refl v⟩
        · have hpw := sortDesc_pairwise (collectAmounts text.data)
          rw [hs] at hpw
          have hge := (List.pairwise_cons.1 hpw).1 x hxr
          simpa [amtGe, Bool.or_eq_true, Bool.and_eq_true,
            decide_eq_true_eq] using hge
  · intro s h
    simp only [ne_eq, decide_not] at h
    simp [cleanAmount, h]

theorem c7_witness :
    collectAmounts (String.data "Total sum: $100") ≠ [] ∧
    (∃ p : ℤ,
      (extractAmount "Total sum: $100", p) ∈
        collectAmounts (String.data "Total sum: $100") ∧
      ∀ x ∈ collectAmounts (String.data "Total sum: $100"),
        x.2 < p ∨ (x.2 = p ∧
          Amt.le x.1 (extractAmount "Total sum: $100") = true)) :=
  ⟨by decide, (c7_amount_selection "Total sum: $100").2.1 (by decide)⟩

theorem find?_range'_eq_some {p : Nat → Bool} {s m i : Nat}
    (h1 : s ≤ i) (h2 : i < s + m) (hp : p i = true)
    (hmin : ∀ j, s ≤ j → j < i → p j = false) :
    (List.range' s m).find? p = some i := by
  induction m generalizing s with
  | zero => omega
  | succ m ih =>
    rw [List.range'_succ]
    by_cases hs : s = i
    · subst hs
      exact List.find?_cons_of_pos _ hp
    · rw [List.find?_cons_of_neg _ (by simp [hmin s le_rfl (by omega)])]
      exact ih (by omega) (by omega)
        (fun j hj1 hj2 => hmin j (by omega) hj2)

theorem find?_range_eq_some {p : Nat → Bool} {n i : Nat} (hi : i < n)
    (hp : p i = true) (hmin : ∀ j, j < i → p j = false) :
    (List.range n).find? p = some i := by
  rw [List.range_eq_range']
  exact find?_range'_eq_some (Nat.zero_le i) (by omega) hp
    (fun j _ hj => hmin j hj)

theorem findSome?_append_none {α β : Type} {f : α → Option β}
    {l₁ l₂ : List α} (h : ∀ v ∈ l₁, f v = none) :
    (l₁ ++ l₂).findSome? f = l₂.findSome? f := by
  induction l₁ with
  | nil => rfl
  | cons a as ih =>
    rw [List.cons_append, List.findSome?_cons, h a (List.mem_cons_self a as)]
    exact ih (fun v hv => h v (List.mem_cons_of_mem _ hv))

/-- C8 (amended).  Stopword truncation works in configured *list order*,
not positional order: if every stopword listed before `w` has no
word-bounded occurrence in the lower-cased name, and `i` is the leftmost
word-bounded occurrence of `w`, then the stopword stage keeps exactly the
stripped text before position `i` — even when another, later-listed
stopword occurs earlier in the name. -/
theorem c8_stopword_truncation (name w : List Char)
    (l₁ l₂ : List (List Char)) (i : Nat)
    (hsplit : entityStopwords = l₁ ++ w :: l₂)
    (hnone : ∀ v ∈ l₁, ∀ j, boundedOccAt (lowerL name) v j = false)
    (hocc : boundedOccAt (lowerL name) w i = true)
    (hilen : i ≤ (lowerL name).length)
    (hmin : ∀ j, j < i → boundedOccAt (lowerL name) w j = false) :
    stopwordCut name = stripL (name.take i) := by
  have hfw : firstOccOf (lowerL name) w = some i :=
    find?_range_eq_some (by omega) hocc hmin
  have hfls : firstListedStop (lowerL name) = some i := by
    rw [firstListedStop, hsplit]
    rw [findSome?_append_none
      (fun v hv => by
        rw [firstOccOf, List.find?_eq_none]
        intro j _
        simp [hnone v hv j])]
    rw [List.findSome?_cons, hfw]
  simp [stopwordCut, hfls]

theorem c8_witness :
    stopwordCut (chars "Foo whereas bar and baz") =
      stripL ((chars "Foo whereas bar and baz").take 16) :=
  c8_stopword_truncation (chars "Foo whereas bar and baz") (chars "and")
    [] (List.tail entityStopwords) 16 (by decide) (by simp) (by decide)
    (by decide) (by decide)

/-- C8 counterexample to the claimed positional rule: in
"Foo whereas bar and baz" the positionally earliest word-bounded stopword
occurrence is "whereas" at index 4, yet the cleaner truncates at the
later "and" (first in list order): the cleaned result "Foo whereas bar"
keeps text at and after index 4. -/
theorem c8_counterexample :
    firstPosStop (lowerL (chars "Foo whereas bar and baz")) = some 4 ∧
    cleanEntityName (chars "Foo whereas bar and baz") =
      chars "Foo whereas bar" ∧
    4 < (cleanEntityName (chars "Foo whereas bar and baz")).length := by
  refine ⟨by decide, by decide, by decide⟩

theorem isValid_len {nm : List Char} (h : isValidEntityName nm = true) :
    3 ≤ nm.length := by
  simp only [isValidEntityName] at h
  split_ifs at h with h1 h2 h3
  have := stripL_len_le nm
  push_neg at h1
  omega

theorem tryOffset_len {lines : List (List Char)} {i off : Nat}
    {nm : List Char} (h : tryOffset lines i off = some nm) :
    3 ≤ nm.length := by
  simp only [tryOffset] at h
  split_ifs at h with h1 h2 h3
  · rw [Option.some.injEq] at h
    subst h
    exact isValid_len h3

theorem pickCandidate_len {lines : List (List Char)} {i : Nat}
    {nm : List Char} (h : pickCandidate lines i = some nm) :
    3 ≤ nm.length := by
  simp only [pickCandidate] at h
  cases h1 : tryOffset lines i 1 with
  | some v =>
    rw [h1] at h
    rw [Option.some.injEq] at h
    subst h
    exact tryOffset_len h1
  | none =>
    rw [h1] at h
    exact tryOffset_len h

theorem tierAGather_len {lines : List (List Char)} {x : Nat × List Char}
    (hx : x ∈ tierAGather lines) : 3 ≤ x.2.length := by
  have main : ∀ (r : List Nat) (acc : List (Nat × List Char)),
      (∀ y ∈ acc, 3 ≤ y.2.length) →
      ∀ y ∈ r.foldl
        (fun acc i =>
          match parsePartyHeader (lines.getD i []) with
          | some num =>
            if i + 1 < lines.length then
              match pickCandidate lines i with
              | some nm =>
                if (acc.lookup num).isNone then acc ++ [(num, nm)] else acc
              | none => acc
            else acc
          | none => acc)
        acc, 3 ≤ y.2.length := by
    intro r
    induction r with
    | nil => intro acc hacc y hy; exact hacc y hy
    | cons i is ih =>
      intro acc hacc y hy
      rw [List.foldl_cons] at hy
      refine ih _ ?_ y hy
      intro z hz
      cases hp : parsePartyHeader (lines.getD i []) with
      | none => simp only [hp] at hz; exact hacc z hz
      | some num =>
        simp only [hp] at hz
        by_cases hlt : i + 1 < lines.length
        · rw [if_pos hlt] at hz
          cases hpc : pickCandidate lines i with
          | none => simp only [hpc] at hz; exact hacc z hz
          | some nm =>
            simp only [hpc] at hz
            by_cases hlk : (acc.lookup num).isNone = true
            · rw [if_pos hlk] at hz
              rcases List.mem_append.1 hz with hz1 | hz2
              · exact hacc z hz1
              · rw [List.mem_singleton] at hz2
                subst hz2
                exact pickCandidate_len hpc
            · rw [if_neg hlk] at hz; exact hacc z hz
        · rw [if_neg hlt] at hz; exact hacc z hz
  exact main (List.range lines.length) [] (by simp) x hx

theorem findSome?_some {α β : Type} {f : α → Option β} {l : List α} {b : β}
    (h : l.findSome? f = some b) : ∃ a ∈ l, f a = some b := by
  induction l with
  | nil => simp [List.findSome?] at h
  | cons x xs ih =>
    rw [List.findSome?_cons] at h
    cases hx : f x with
    | some c =>
      rw [hx] at h
      exact ⟨x, List.mem_cons_self _ _, by rw [hx]; exact h⟩
    | none =>
      rw [hx] at h
      obtain ⟨a, ha, hfa⟩ := ih h
      exact ⟨a, List.mem_cons_of_mem _ ha, hfa⟩

theorem kwOfScan_bounds {ln kw : List Char} {pos e : Nat}
    (h : kwOfScan ln kw pos = some e) : pos + 5 ≤ e ∧ e ≤ ln.length := by
  simp only [kwOfScan] at h
  split_ifs at h with h1 h2 h3
  · rw [Option.some.injEq] at h
    subst h
    have hof : matchAt ln (chars "of") (wsEnd ln (pos + kw.length)) = true :=
      h2.2
    have hb := matchAt_bound hof (by decide)
    rw [show (chars "of").length = 2 from rfl] at hb
    have hr := runEnd_le_length (t := ln)
      (f := fun c => isWordChar c || isWS c)
      (i := wsEnd ln (pos + kw.length) + 2) (by omega)
    have h21 := h2.1
    have h32 := h3.2
    omega

theorem lowerL_len (t : List Char) : (lowerL t).length = t.length :=
  List.length_map t lowerChar

theorem tierCMatchesF_len {t lt : List Char} (hlt : lt.length = t.length) :
    ∀ fuel pos x, x ∈ tierCMatchesF t lt fuel pos → 3 ≤ x.length := by
  intro fuel
  induction fuel with
  | zero => intro pos x hx; simp [tierCMatchesF] at hx
  | succ fuel ih =>
    intro pos x hx
    rw [tierCMatchesF] at hx
    by_cases hlen : t.length < pos
    · rw [if_pos hlen] at hx
      simp at hx
    · rw [if_neg hlen] at hx
      cases hfs : [chars "city", chars "county", chars "town",
          chars "village", chars "township"].findSome?
          (fun kw => kwOfScan lt kw pos) with
      | some e =>
        rw [hfs] at hx
        rcases List.mem_cons.1 hx with rfl | hx2
        · obtain ⟨kw, hkw, hscan⟩ := findSome?_some hfs
          have hb := kwOfScan_bounds hscan
          simp only [slice, List.length_drop, List.length_take]
          omega
        · exact ih _ x hx2
      | none =>
        rw [hfs] at hx
        exact ih _ x hx

theorem lookup_mem {l : List (Nat × List Char)} {k : Nat} {v : List Char}
    (h : l.lookup k = some v) : (k, v) ∈ l := by
  induction l with
  | nil => simp [List.lookup] at h
  | cons p ps ih =>
    obtain ⟨a, b⟩ := p
    simp only [List.lookup] at h
    by_cases hk : (k == a) = true
    · simp only [hk] at h
      rw [Option.some.injEq] at h
      subst h
      rw [beq_iff_eq] at hk
      subst hk
      exact List.mem_cons_self _ _
    · rw [Bool.not_eq_true] at hk
      simp only [hk] at h
      exact List.mem_cons_of_mem _ (ih h)

theorem tierB_len {t e1 : List Char} {oe2 : Option (List Char)}
    (h : tierB t = some (e1, oe2)) :
    3 ≤ e1.length ∧ ∀ s, oe2 = some s → 3 ≤ s.length := by
  simp only [tierB] at h
  split at h
  · split_ifs at h with hg1 hg2
    · simp only [Option.some.injEq, Prod.mk.injEq] at h
      obtain ⟨h1, h2⟩ := h
      subst h1
      subst h2
      refine ⟨le_of_lt hg1.2.1, ?_⟩
      intro s hs
      rw [Option.some.injEq] at hs
      subst hs
      exact le_of_lt hg1.2.2.2
    · simp only [Option.some.injEq, Prod.mk.injEq] at h
      obtain ⟨h1, h2⟩ := h
      subst h1
      subst h2
      refine ⟨le_of_lt hg2.2, ?_⟩
      intro s hs
      simp at hs
  · simp at h

theorem dedup_sub {ms : List (List Char)} {x : List Char}
    (hx : x ∈ dedup ms) : x ∈ ms := by
  have aux : ∀ (r acc : List (List Char)), x ∈ r.foldl
      (fun acc m => if decide (m ∈ acc) then acc else acc ++ [m]) acc →
      x ∈ acc ∨ x ∈ r := by
    intro r
    induction r with
    | nil => intro acc h; exact Or.inl h
    | cons m rs ih =>
      intro acc h
      rw [List.foldl_cons] at h
      rcases ih _ h with h1 | h1
      · by_cases hm : decide (m ∈ acc) = true
        · rw [if_pos hm] at h1
          exact Or.inl h1
        · rw [if_neg hm] at h1
          rcases List.mem_append.1 h1 with h2 | h2
          · exact Or.inl h2
          · rw [List.mem_singleton] at h2
            subst h2
            exact Or.inr (List.mem_cons_self _ _)
      · exact Or.inr (List.mem_cons_of_mem _ h1)
  rcases aux ms [] hx with h | h
  · simp at h
  · exact h

theorem tierC_len {t e1 : List Char} {oe2 : Option (List Char)}
    (h : tierC t = some (e1, oe2)) :
    3 ≤ e1.length ∧ ∀ s, oe2 = some s → 3 ≤ s.length := by
  have hall : ∀ x ∈ dedup (tierCMatches t (lowerL t) 0), 3 ≤ x.length := by
    intro x hx
    exact tierCMatchesF_len (lowerL_len t) _ _ x (dedup_sub hx)
  simp only [tierC] at h
  split at h
  · exact absurd h (by simp)
  · rename_i x heq
    simp only [Option.some.injEq, Prod.mk.injEq] at h
    obtain ⟨h1, h2⟩ := h
    subst h1
    subst h2
    refine ⟨hall _ (by rw [heq]; exact List.mem_singleton.2 rfl), ?_⟩
    intro s hs
    simp at hs
  · rename_i x y rest heq
    simp only [Option.some.injEq, Prod.mk.injEq] at h
    obtain ⟨h1, h2⟩ := h
    subst h1
    subst h2
    refine ⟨hall _ (by rw [heq]; exact List.mem_cons_self _ _), ?_⟩
    intro s hs
    rw [Option.some.injEq] at hs
    subst hs
    exact hall _ (by
      rw [heq]
      exact List.mem_cons_of_mem _ (List.mem_cons_self _ _))

theorem extractEntitiesCore_len {t : List Char} {a b : Option (List Char)}
    (he : extractEntitiesCore t = (a, b)) :
    (∀ l, a = some l → 3 ≤ l.length) ∧ (∀ l, b = some l → 3 ≤ l.length) := by
  simp only [extractEntitiesCore] at he
  cases h1 : (tierAGather (splitNL t)).lookup 1 with
  | some n1 =>
    have hn1 : 3 ≤ n1.length :=
      tierAGather_len (lookup_mem h1)
    cases h2 : (tierAGather (splitNL t)).lookup 2 with
    | some n2 =>
      have hn2 : 3 ≤ n2.length :=
        tierAGather_len (lookup_mem h2)
      simp only [h1, h2] at he
      injection he with ha hb
      subst ha
      subst hb
      constructor
      · intro l hl
        rw [Option.some.injEq] at hl
        subst hl
        exact hn1
      · intro l hl
        rw [Option.some.injEq] at hl
        subst hl
        exact hn2
    | none =>
      simp only [h1, h2] at he
      injection he with ha hb
      subst ha
      subst hb
      constructor
      · intro l hl
        rw [Option.some.injEq] at hl
        subst hl
        exact hn1
      · intro l hl
        simp at hl
  | none =>
    cases h2 : (tierAGather (splitNL t)).lookup 2 with
    | some n2 =>
      have hn2 : 3 ≤ n2.length :=
        tierAGather_len (lookup_mem h2)
      simp only [h1, h2] at he
      injection he with ha hb
      subst ha
      subst hb
      constructor
      · intro l hl
        simp at hl
      · intro l hl
        rw [Option.some.injEq] at hl
        subst hl
        exact hn2
    | none =>
      simp only [h1, h2] at he
      cases hB : tierB t with
      | some p =>
        obtain ⟨f1, of2⟩ := p
        simp only [hB] at he
        injection he with ha hb
        subst ha
        subst hb
        obtain ⟨hb1, hb2⟩ := tierB_len hB
        constructor
        · intro l hl
          rw [Option.some.injEq] at hl
          subst hl
          exact hb1
        · exact hb2
      | none =>
        simp only [hB] at he
        cases hC : tierC t with
        | some p =>
          obtain ⟨f1, of2⟩ := p
          simp only [hC] at he
          injection he with ha hb
          subst ha
          subst hb
          obtain ⟨hc1, hc2⟩ := tierC_len hC
          constructor
          · intro l hl
            rw [Option.some.injEq] at hl
            subst hl
            exact hc1
          · exact hc2
        | none =>
          simp only [hC] at he
          injection he with ha hb
          subst ha
          subst hb
          constructor
          · intro l hl
            simp at hl
          · intro l hl
            simp at hl

/-- C10.  The implicit minimum-length invariant of party extraction: on
every input text, each component of the pair returned by
`extract_entities` is either `none` or a string of length at least 3
(Tier A's names pass the validator's stripped-length-3 check, Tier B's
cleaned spans pass the over-3 length guards, and Tier C matches contain
a keyword, " of " and at least one more character). -/
theorem c10_min_length (text : String) :
    (∀ s, (extractEntities text).1 = some s → 3 ≤ s.length) ∧
    (∀ s, (extractEntities text).2 = some s → 3 ≤ s.length) := by
  obtain ⟨ha, hb⟩ := extractEntitiesCore_len (t := text.data)
    (a := (extractEntitiesCore text.data).1)
    (b := (extractEntitiesCore text.data).2) rfl
  constructor
  · intro s hs
    have hs2 : ((extractEntitiesCore text.data).1).map String.mk = some s :=
      hs
    cases hca : (extractEntitiesCore text.data).1 with
    | none => rw [hca] at hs2; simp at hs2
    | some l =>
      rw [hca] at hs2
      simp only [Option.map_some', Option.some.injEq] at hs2
      subst hs2
      exact ha l hca
  · intro s hs
    have hs2 : ((extractEntitiesCore text.data).2).map String.mk = some s :=
      hs
    cases hcb : (extractEntitiesCore text.data).2 with
    | none => rw [hcb] at hs2; simp at hs2
    | some l =>
      rw [hcb] at hs2
      simp only [Option.map_some', Option.some.injEq] at hs2
      subst hs2
      exact hb l hcb

theorem c10_witness : 3 ≤ ("City of Ames" : String).length :=
  (c10_min_length "City of Ames").1 "City of Ames" (by decide)
